import Mathlib

/-!
Verification of the earth2 tile-grid / quadtree-subdivision core.

The definitions below are a shallow embedding of the repository's
TypeScript source:

* `src/tileGrid.ts` — pure grid math (`tileIdToString`, `parseTileId`,
  `tileBounds`, `insetBounds`, `quadrantBounds`, `quadrantAt`,
  `latLonToTile`);
* the subdivision controller `removeOrSplitTileAt` of `src/geoUtils.ts`
  (the variant with grid config 18×36, `TILE_GAP = 0.03`,
  `SPLIT_DEPTH = 15`, and `gapForDepth`), acting on the flat entity
  registry (Cesium's `viewer.entities`, modelled as an association list
  from identifier strings to entities).

JavaScript numbers are modelled as exact rationals, JavaScript strings as
Lean strings (lists of characters).
-/

namespace Earth2

section Earth2Dev

attribute [local semireducible] Rat.add Rat.mul Rat.inv Rat.sub

/-! ## Decimal strings

JavaScript renders the non-negative integers interpolated into identifier
templates in ordinary decimal notation.  `natToDecimal` reproduces that
representation; it is implemented with a fuel argument so that it reduces
by kernel computation. -/

/-- The decimal digit character for `n` (ASCII code 48 + n). -/
def digitChar (n : ℕ) : Char := Char.ofNat (48 + n)

/-- Fueled decimal conversion; `fuel > n` renders `n` fully. -/
def natToDecimalAux : ℕ → ℕ → List Char
  | 0, _ => []
  | fuel + 1, n =>
    if n < 10 then [digitChar n]
    else natToDecimalAux fuel (n / 10) ++ [digitChar (n % 10)]

/-- Decimal representation of a natural number, as produced by JavaScript
string interpolation of a non-negative integer. -/
def natToDecimal (n : ℕ) : List Char := natToDecimalAux (n + 1) n

/-- Character class `\d` of the tile-identifier regular expression. -/
def isDigitChar (c : Char) : Bool := 48 ≤ c.toNat && c.toNat ≤ 57

/-- Value of a digit string, as computed by `parseInt(·, 10)` on a string
of decimal digits. -/
def digitsVal (cs : List Char) : ℕ := cs.foldl (fun a c => 10 * a + (c.toNat - 48)) 0

/-! ## tileGrid.ts -/

/-- A top-level tile identifier: `interface TileId { row; col }`.  The
program only ever stores non-negative integers in the two fields. -/
structure TileId where
  row : ℕ
  col : ℕ
deriving DecidableEq

/-- Model of `tileIdToString`: the template string `tile_${row}_${col}`. -/
def tileIdToString (tile : TileId) : String :=
  ("tile_") ++ ⟨natToDecimal tile.row⟩ ++ ("_") ++ ⟨natToDecimal tile.col⟩

/-- Model of `parseTileId`: match the input against the regular expression
`^tile_(\d+)_(\d+)$` and on success parse the two digit groups with
`parseInt(·, 10)`; on a failed match return `null` (here `none`).  The
two `\d+` groups are the maximal digit runs after the literal `tile_`
and after the separating `_`. -/
def parseTileId (id : String) : Option TileId :=
  match id.data with
  | 't' :: 'i' :: 'l' :: 'e' :: '_' :: rest =>
    match rest.takeWhile isDigitChar, rest.dropWhile isDigitChar with
    | ds1@(_ :: _), '_' :: r2 =>
      match r2.takeWhile isDigitChar, r2.dropWhile isDigitChar with
      | ds2@(_ :: _), [] => some ⟨digitsVal ds1, digitsVal ds2⟩
      | _, _ => none
    | _, _ => none
  | _ => none

/-- The exact tile-identifier pattern, following the spec's words:
deserialization "must reject any string not matching that exact
pattern" `tile_<row>_<col>` with row and col as digit runs — the
anchored regular expression `^tile_(\d+)_(\d+)$` of the source.  A
string matches when it is literally `tile_`, a non-empty run of digits,
`_`, and a non-empty run of digits. -/
def matchesTileIdPattern (s : String) : Prop :=
  ∃ ds1 ds2 : List Char, ds1 ≠ [] ∧ ds2 ≠ [] ∧
    (∀ c ∈ ds1, isDigitChar c = true) ∧ (∀ c ∈ ds2, isDigitChar c = true) ∧
    s.data = 't' :: 'i' :: 'l' :: 'e' :: '_' :: (ds1 ++ '_' :: ds2)

/-- Model of `interface TileGridConfig { latCount; lonCount }`. -/
structure TileGridConfig where
  latCount : ℕ
  lonCount : ℕ
deriving DecidableEq

/-- Model of `DEFAULT_GRID_CONFIG`. -/
def DEFAULT_GRID_CONFIG : TileGridConfig := ⟨36, 72⟩

/-- Geographic bounds in degrees: `{ west; south; east; north }`. -/
@[ext]
structure Bounds where
  west : ℚ
  south : ℚ
  east : ℚ
  north : ℚ
deriving DecidableEq

/-- Model of `tileBounds`: the raw grid cell of `(row, col)`, inset on
each side by half of `gapFraction` of the cell dimensions when
`gapFraction > 0`. -/
def tileBounds (row col : ℚ) (config : TileGridConfig) (gapFraction : ℚ) : Bounds :=
  let latStep : ℚ := 180 / config.latCount
  let lonStep : ℚ := 360 / config.lonCount
  let south := -90 + row * latStep
  let north := south + latStep
  let west := -180 + col * lonStep
  let east := west + lonStep
  if 0 < gapFraction then
    let marginLon := lonStep * gapFraction
    let marginLat := latStep * gapFraction
    ⟨west + marginLon / 2, south + marginLat / 2, east - marginLon / 2, north - marginLat / 2⟩
  else
    ⟨west, south, east, north⟩

/-- Model of `insetBounds`: shrink the rectangle by `gapFraction / 2` of
its own width/height on each side. -/
def insetBounds (bounds : Bounds) (gapFraction : ℚ) : Bounds :=
  let w := bounds.east - bounds.west
  let h := bounds.north - bounds.south
  let marginLon := w * (gapFraction / 2)
  let marginLat := h * (gapFraction / 2)
  ⟨bounds.west + marginLon, bounds.south + marginLat,
   bounds.east - marginLon, bounds.north - marginLat⟩

/-- Model of `quadrantBounds`: one quadrant of a rectangle, split at the
midpoints; quadrant 0=SW, 1=SE, 2=NW, 3=NE. -/
def quadrantBounds (bounds : Bounds) (quadrant : Fin 4) : Bounds :=
  let midLon := (bounds.west + bounds.east) / 2
  let midLat := (bounds.south + bounds.north) / 2
  match quadrant with
  | 0 => ⟨bounds.west, bounds.south, midLon, midLat⟩
  | 1 => ⟨midLon, bounds.south, bounds.east, midLat⟩
  | 2 => ⟨bounds.west, midLat, midLon, bounds.north⟩
  | 3 => ⟨midLon, midLat, bounds.east, bounds.north⟩

/-- Model of `quadrantAt`: `(north << 1) | east` with
`north = lat >= midLat` and `east = lon >= midLon`. -/
def quadrantAt (lat lon : ℚ) (bounds : Bounds) : Fin 4 :=
  let midLon := (bounds.west + bounds.east) / 2
  let midLat := (bounds.south + bounds.north) / 2
  if midLat ≤ lat then (if midLon ≤ lon then 3 else 2)
  else (if midLon ≤ lon then 1 else 0)

/-- Model of `latLonToTile`: floor-divide the offset coordinates by the
step sizes, clamp from above by the last row/column index with
`Math.min`, and clamp negatives to 0 with `Math.max`. -/
def latLonToTile (lat lon : ℚ) (config : TileGridConfig) : TileId :=
  let latStep : ℚ := 180 / config.latCount
  let lonStep : ℚ := 360 / config.lonCount
  let row : ℤ := min ⌊(lat + 90) / latStep⌋ ((config.latCount : ℤ) - 1)
  let col : ℤ := min ⌊(lon + 180) / lonStep⌋ ((config.lonCount : ℤ) - 1)
  ⟨(max 0 row).toNat, (max 0 col).toNat⟩

/-! ## geoUtils.ts subdivision controller

Constants and entity registry of the `removeOrSplitTileAt` variant
(grid config 18×36, `TILE_GAP = 0.03`, `SPLIT_DEPTH = 15`). -/

/-- The variant's grid config: `{ latCount: 18, lonCount: 36 }`. -/
def gridConfig : TileGridConfig := ⟨18, 36⟩

/-- Top-level margin fraction `TILE_GAP = 0.03`. -/
def TILE_GAP : ℚ := 3 / 100

/-- Maximum subdivision depth `SPLIT_DEPTH = 15`. -/
def SPLIT_DEPTH : ℕ := 15

/-- Model of `gapForDepth`: `Math.max(0.01, TILE_GAP * Math.pow(0.5, depth))`. -/
def gapForDepth (depth : ℕ) : ℚ := max (1 / 100) (TILE_GAP * (1 / 2) ^ depth)

/-- A displayed rectangle entity.  The source's `show` flag is called
`visible` here because `show` is a Lean keyword. -/
structure Entity where
  bounds : Bounds
  visible : Bool
deriving DecidableEq

/-- The flat entity registry (`viewer.entities`), keyed by identifier. -/
abbrev Registry := List (String × Entity)

/-- Model of `viewer.entities.getById`. -/
def getById (reg : Registry) (id : String) : Option Entity :=
  match reg with
  | [] => none
  | (i, e) :: rest => if i = id then some e else getById rest id

/-- Model of `addTileEntity`: register a new visible entity.  The model
inserts at the front where Cesium appends; the order is immaterial
because `viewer.entities` forbids duplicate identifiers. -/
def addTileEntity (reg : Registry) (id : String) (b : Bounds) : Registry :=
  (id, ⟨b, true⟩) :: reg

/-- Model of `viewer.entities.remove` of the entity registered at `id`. -/
def removeById (reg : Registry) (id : String) : Registry :=
  reg.filter (fun p => !(p.1 == id))

/-- Model of JavaScript `String.startsWith`. -/
def strStartsWith (s pfx : String) : Bool := pfx.data.isPrefixOf s.data

/-- Model of the subtree-removal scan: collect every entity whose
identifier starts with `pfx` and remove them all. -/
def removeSubtree (reg : Registry) (pfx : String) : Registry :=
  reg.filter (fun p => !(strStartsWith p.1 pfx))

/-- The identifier `${baseId}_${path.join("_")}` of the node reached from
the tile `baseId` by the quadrant path `path` (equal to `baseId` itself
for the empty path). -/
def idOfPath (baseId : String) (path : List (Fin 4)) : String :=
  path.foldl (fun s q => s ++ ("_") ++ ⟨natToDecimal q.val⟩) baseId

/-- One level of the split loop body: for each of the four quadrants
except the hole (the quadrant containing the point), register a visible
entity at the child identifier with the quadrant bounds inset by
`gapForDepth depth`. -/
def addSiblings (lat lon : ℚ) (baseId : String) (bounds : Bounds)
    (path : List (Fin 4)) (depth : ℕ) (reg : Registry) : Registry :=
  (List.finRange 4).foldl
    (fun r q =>
      if q = quadrantAt lat lon bounds then r
      else addTileEntity r (idOfPath baseId (path ++ [q]))
        (insetBounds (quadrantBounds bounds q) (gapForDepth depth)))
    reg

/-- The split loop of `removeOrSplitTileAt`: at each remaining level,
register the three sibling entities and descend into the hole quadrant.
Both branches of the source run this loop — the first with
`path = []`, `depth = 0` and `remaining = SPLIT_DEPTH`, the second
rooted at the found leaf. -/
def splitFrom (lat lon : ℚ) (baseId : String) :
    Bounds → List (Fin 4) → ℕ → ℕ → Registry → Registry
  | _, _, _, 0, reg => reg
  | bounds, path, depth, remaining + 1, reg =>
    let holeQ := quadrantAt lat lon bounds
    splitFrom lat lon baseId (quadrantBounds bounds holeQ) (path ++ [holeQ])
      (depth + 1) remaining (addSiblings lat lon baseId bounds path depth reg)

/-- The walk of the already-split branch of `removeOrSplitTileAt`: follow
the quadrant containing the point one level at a time; at the first
level whose entity exists and is visible, remove it together with its
whole subtree and re-split it for the remaining depth.  `fuel` counts
the remaining loop iterations (initially `SPLIT_DEPTH`). -/
def descend (lat lon : ℚ) (baseId : String) :
    Bounds → List (Fin 4) → ℕ → Registry → Registry
  | _, _, 0, reg => reg
  | bounds, path, fuel + 1, reg =>
    let q := quadrantAt lat lon bounds
    let path' := path ++ [q]
    let id := idOfPath baseId path'
    match getById reg id with
    | some e =>
      if e.visible then
        splitFrom lat lon baseId (quadrantBounds bounds q) path' path'.length
          (SPLIT_DEPTH - path'.length)
          (removeSubtree (removeById reg id) (id ++ ("_")))
      else descend lat lon baseId (quadrantBounds bounds q) path' fuel reg
    | none => descend lat lon baseId (quadrantBounds bounds q) path' fuel reg

/-- Model of `removeOrSplitTileAt (lat, lon)` acting on the registry:
split the top-level tile containing the point if its entity is still
visible, otherwise walk down the implicit tree and re-split the first
visible leaf containing the point. -/
def removeOrSplitTileAt (reg : Registry) (lat lon : ℚ) : Registry :=
  let tile := latLonToTile lat lon gridConfig
  let baseId := tileIdToString tile
  let baseBoundsFull := tileBounds (tile.row : ℚ) (tile.col : ℚ) gridConfig 0
  match getById reg baseId with
  | some e =>
    if e.visible then
      splitFrom lat lon baseId baseBoundsFull [] 0 SPLIT_DEPTH (removeById reg baseId)
    else
      descend lat lon baseId baseBoundsFull [] SPLIT_DEPTH reg
  | none => descend lat lon baseId baseBoundsFull [] SPLIT_DEPTH reg

/-! ## Derived descriptions of the split loop

These definitions are not part of the source; they name the data the
split loop manipulates (the chain of hole bounds, the chain of hole
quadrants, and the list of entities each invocation registers) so that
the theorems can speak about them.  Each is proved to characterize the
corresponding part of `splitFrom` / `removeOrSplitTileAt` below. -/

/-- One drilling step: narrow the bounds to the quadrant containing the
point. -/
def holeStep (lat lon : ℚ) (b : Bounds) : Bounds :=
  quadrantBounds b (quadrantAt lat lon b)

/-- The bounds after `n` drilling steps from `b` toward the point. -/
def boundsAtLevel (lat lon : ℚ) : Bounds → ℕ → Bounds
  | b, 0 => b
  | b, n + 1 => boundsAtLevel lat lon (holeStep lat lon b) n

/-- The quadrant path of the first `n` holes drilled from `b` toward the
point. -/
def holePathFrom (lat lon : ℚ) : Bounds → ℕ → List (Fin 4)
  | _, 0 => []
  | b, n + 1 => quadrantAt lat lon b :: holePathFrom lat lon (holeStep lat lon b) n

/-- The three sibling entries registered at one level of the split loop,
in ascending quadrant order. -/
def sibEntries (lat lon : ℚ) (baseId : String) (b : Bounds)
    (path : List (Fin 4)) (depth : ℕ) : List (String × Entity) :=
  ((List.finRange 4).filter (fun q => q != quadrantAt lat lon b)).map
    (fun q => (idOfPath baseId (path ++ [q]),
      ⟨insetBounds (quadrantBounds b q) (gapForDepth depth), true⟩))

/-- All entries registered by `splitFrom` over `n` levels (deepest level
first, each level in the reversed order in which the loop registers
them). -/
def newEntries (lat lon : ℚ) (baseId : String) :
    Bounds → List (Fin 4) → ℕ → ℕ → List (String × Entity)
  | _, _, _, 0 => []
  | b, path, depth, r + 1 =>
    newEntries lat lon baseId (holeStep lat lon b) (path ++ [quadrantAt lat lon b])
      (depth + 1) r ++ (sibEntries lat lon baseId b path depth).reverse

/-- The character suffix a quadrant path appends to a base identifier. -/
def pathChars : List (Fin 4) → List Char
  | [] => []
  | q :: t => '_' :: digitChar q.val :: pathChars t

/-- The top-level tile of a point (first line of `removeOrSplitTileAt`). -/
def baseTileOf (lat lon : ℚ) : TileId := latLonToTile lat lon gridConfig

/-- The base identifier of a point's top-level tile. -/
def baseIdOf (lat lon : ℚ) : String := tileIdToString (baseTileOf lat lon)

/-- The raw (gap-free) cell bounds of a point's top-level tile. -/
def baseBoundsOf (lat lon : ℚ) : Bounds :=
  tileBounds ((baseTileOf lat lon).row : ℚ) ((baseTileOf lat lon).col : ℚ) gridConfig 0

/-- A one-tile registry holding only the never-split tile (9, 18) —
the tile containing the concrete points used by the scenario theorems. -/
def witnessReg : Registry :=
  [(("tile_9_18"), ⟨tileBounds 9 18 gridConfig TILE_GAP, true⟩)]

/-- The registry after a first click at (1, 1) on the one-tile registry. -/
def reg1c : Registry := removeOrSplitTileAt witnessReg 1 1

/-- The registry after a further click at (4, 4) — a point inside the
depth-1 hole of the first click whose current leaf is the depth-2
sibling. -/
def reg2c : Registry := removeOrSplitTileAt reg1c 4 4

/-! ## Geometric predicates used by the statements -/

/-- The point `(lat, lon)` lies within the rectangle or on its boundary. -/
def containsPoint (b : Bounds) (lat lon : ℚ) : Prop :=
  b.west ≤ lon ∧ lon ≤ b.east ∧ b.south ≤ lat ∧ lat ≤ b.north

/-- The point `(lat, lon)` lies in the open interior of the rectangle. -/
def strictlyInside (b : Bounds) (lat lon : ℚ) : Prop :=
  b.west < lon ∧ lon < b.east ∧ b.south < lat ∧ lat < b.north

instance (b : Bounds) (lat lon : ℚ) : Decidable (containsPoint b lat lon) := by
  unfold containsPoint; infer_instance

instance (b : Bounds) (lat lon : ℚ) : Decidable (strictlyInside b lat lon) := by
  unfold strictlyInside; infer_instance

/-- The rectangle is non-degenerate: west < east and south < north. -/
def nondegenerate (b : Bounds) : Prop := b.west < b.east ∧ b.south < b.north

instance (b : Bounds) : Decidable (nondegenerate b) := by
  unfold nondegenerate; infer_instance

/-! ## Evaluation lemmas for the four quadrants -/

lemma quadrantBounds_q0 (b : Bounds) :
    quadrantBounds b 0 =
      ⟨b.west, b.south, (b.west + b.east) / 2, (b.south + b.north) / 2⟩ := rfl

lemma quadrantBounds_q1 (b : Bounds) :
    quadrantBounds b 1 =
      ⟨(b.west + b.east) / 2, b.south, b.east, (b.south + b.north) / 2⟩ := rfl

lemma quadrantBounds_q2 (b : Bounds) :
    quadrantBounds b 2 =
      ⟨b.west, (b.south + b.north) / 2, (b.west + b.east) / 2, b.north⟩ := rfl

lemma quadrantBounds_q3 (b : Bounds) :
    quadrantBounds b 3 =
      ⟨(b.west + b.east) / 2, (b.south + b.north) / 2, b.east, b.north⟩ := rfl

/-- Every index of `Fin 4` is one of the four quadrant literals. -/
lemma fin4_cases (q : Fin 4) : q = 0 ∨ q = 1 ∨ q = 2 ∨ q = 3 := by
  revert q; decide

/-- The quadrant returned by `quadrantAt` contains the point whenever the
point is within the bounds. -/
lemma containsPoint_quadrantAt {b : Bounds} {lat lon : ℚ}
    (h : containsPoint b lat lon) :
    containsPoint (quadrantBounds b (quadrantAt lat lon b)) lat lon := by
  obtain ⟨h1, h2, h3, h4⟩ := h
  unfold quadrantAt
  by_cases hlat : (b.south + b.north) / 2 ≤ lat <;>
    by_cases hlon : (b.west + b.east) / 2 ≤ lon <;>
      simp only [hlat, hlon, if_true, if_false, ite_true, ite_false] <;>
        simp only [containsPoint, quadrantBounds_q0, quadrantBounds_q1,
          quadrantBounds_q2, quadrantBounds_q3] <;>
        exact ⟨by linarith, by linarith, by linarith, by linarith⟩

/-- Claim C9: `insetBounds` with gap fraction 0 is a no-op and, for every
gap fraction ≥ 0, the result keeps the center of the input rectangle
while each side is moved inward by half the gap fraction of the
corresponding dimension. -/
theorem insetBounds_noop_center_sides (b : Bounds) (g : ℚ) (hg : 0 ≤ g) :
    insetBounds b 0 = b ∧
    ((insetBounds b g).west + (insetBounds b g).east) / 2 = (b.west + b.east) / 2 ∧
    ((insetBounds b g).south + (insetBounds b g).north) / 2 = (b.south + b.north) / 2 ∧
    (insetBounds b g).west = b.west + (b.east - b.west) * (g / 2) ∧
    (insetBounds b g).east = b.east - (b.east - b.west) * (g / 2) ∧
    (insetBounds b g).south = b.south + (b.north - b.south) * (g / 2) ∧
    (insetBounds b g).north = b.north - (b.north - b.south) * (g / 2) := by
  refine ⟨by ext <;> simp [insetBounds] <;> ring, ?_, ?_, ?_, ?_, ?_, ?_⟩ <;>
    simp [insetBounds] <;> ring

/-- Witness for the C9 theorem at a concrete rectangle and gap. -/
theorem insetBounds_noop_center_sides_witness :
    (0 : ℚ) ≤ 1 / 2 ∧ insetBounds ⟨0, 0, 8, 4⟩ 0 = ⟨0, 0, 8, 4⟩ ∧
      (insetBounds ⟨0, 0, 8, 4⟩ (1 / 2)).west = 0 + (8 - 0) * (1 / 2 / 2) :=
  ⟨by decide, (insetBounds_noop_center_sides ⟨0, 0, 8, 4⟩ (1 / 2) (by decide)).1,
    (insetBounds_noop_center_sides ⟨0, 0, 8, 4⟩ (1 / 2) (by decide)).2.2.2.1⟩

/-- Claim C10: for a grid config with positive counts and any gap fraction ≥ 0,
the inline margin computation of `tileBounds` produces exactly
`insetBounds` of the raw (gap-free) cell. -/
theorem tileBounds_eq_insetBounds (row col : ℚ) (cfg : TileGridConfig)
    (hlat : 0 < cfg.latCount) (hlon : 0 < cfg.lonCount) (g : ℚ) (hg : 0 ≤ g) :
    tileBounds row col cfg g = insetBounds (tileBounds row col cfg 0) g := by
  rcases eq_or_lt_of_le hg with h | h
  · rw [← h]
    ext <;> simp [tileBounds, insetBounds] <;> ring
  · ext <;> simp [tileBounds, insetBounds, if_pos h] <;> ring

/-- Witness for the C10 theorem at a concrete tile and gap. -/
theorem tileBounds_eq_insetBounds_witness :
    0 < (18 : ℕ) ∧ 0 < (36 : ℕ) ∧ (0 : ℚ) ≤ 3 / 100 ∧
      tileBounds 9 18 ⟨18, 36⟩ (3 / 100) =
        insetBounds (tileBounds 9 18 ⟨18, 36⟩ 0) (3 / 100) :=
  ⟨by decide, by decide, by decide,
    tileBounds_eq_insetBounds 9 18 ⟨18, 36⟩ (by decide) (by decide) (3 / 100) (by decide)⟩

/-- Claim C5: for a non-degenerate rectangle the four quadrants exactly
partition it — a point is in the rectangle exactly when it is in some
quadrant, no point is interior to two distinct quadrants, and the split
happens at the midpoint of each axis. -/
theorem quadrantBounds_exact_partition (b : Bounds)
    (hw : b.west < b.east) (hs : b.south < b.north) :
    (∀ lat lon, containsPoint b lat lon ↔
      ∃ q : Fin 4, containsPoint (quadrantBounds b q) lat lon) ∧
    (∀ lat lon, ∀ q q' : Fin 4, q ≠ q' →
      ¬(strictlyInside (quadrantBounds b q) lat lon ∧
        strictlyInside (quadrantBounds b q') lat lon)) ∧
    ((quadrantBounds b 0).east = (b.west + b.east) / 2 ∧
      (quadrantBounds b 0).north = (b.south + b.north) / 2) := by
  refine ⟨?_, ?_, rfl, rfl⟩
  · intro lat lon
    constructor
    · intro h
      exact ⟨quadrantAt lat lon b, containsPoint_quadrantAt h⟩
    · rintro ⟨q, h⟩
      rcases fin4_cases q with rfl | rfl | rfl | rfl <;>
        simp only [containsPoint, quadrantBounds_q0, quadrantBounds_q1,
          quadrantBounds_q2, quadrantBounds_q3] at h ⊢ <;>
        obtain ⟨h1, h2, h3, h4⟩ := h <;>
        exact ⟨by linarith, by linarith, by linarith, by linarith⟩
  · intro lat lon q q' hne hcontra
    obtain ⟨ha, hb⟩ := hcontra
    rcases fin4_cases q with rfl | rfl | rfl | rfl <;>
      rcases fin4_cases q' with rfl | rfl | rfl | rfl <;>
        simp only [strictlyInside, quadrantBounds_q0, quadrantBounds_q1,
          quadrantBounds_q2, quadrantBounds_q3] at ha hb <;>
        obtain ⟨a1, a2, a3, a4⟩ := ha <;>
        obtain ⟨b1, b2, b3, b4⟩ := hb <;>
        first
        | exact hne rfl
        | linarith

/-- Witness for the C5 theorem at a concrete rectangle. -/
theorem quadrantBounds_exact_partition_witness :
    (0 : ℚ) < 10 ∧ (0 : ℚ) < 10 ∧
      (containsPoint ⟨0, 0, 10, 10⟩ 1 1 ↔
        ∃ q : Fin 4, containsPoint (quadrantBounds ⟨0, 0, 10, 10⟩ q) 1 1) :=
  ⟨by decide, by decide,
    (quadrantBounds_exact_partition ⟨0, 0, 10, 10⟩ (by decide) (by decide)).1 1 1⟩

/-- Claim C6: `quadrantAt` returns `(northBit << 1) | eastBit` with the ≥
convention on both midlines, and the point lies within the quadrant
rectangle it selects whenever it lies within the input bounds. -/
theorem quadrantAt_encoding_consistent (b : Bounds)
    (hw : b.west < b.east) (hs : b.south < b.north) (lat lon : ℚ) :
    (quadrantAt lat lon b).val =
      2 * (if (b.south + b.north) / 2 ≤ lat then 1 else 0) +
        (if (b.west + b.east) / 2 ≤ lon then 1 else 0) ∧
    (containsPoint b lat lon →
      containsPoint (quadrantBounds b (quadrantAt lat lon b)) lat lon) := by
  constructor
  · unfold quadrantAt
    by_cases hlat : (b.south + b.north) / 2 ≤ lat <;>
      by_cases hlon : (b.west + b.east) / 2 ≤ lon <;>
        simp [hlat, hlon] <;> decide
  · exact containsPoint_quadrantAt

/-- Witness for the C6 theorem at a concrete rectangle and point on the
vertical midline (classified north). -/
theorem quadrantAt_encoding_consistent_witness :
    (0 : ℚ) < 10 ∧ (0 : ℚ) < 10 ∧
      (quadrantAt 5 1 ⟨0, 0, 10, 10⟩).val =
        2 * (if ((0 : ℚ) + 10) / 2 ≤ 5 then 1 else 0) +
          (if ((0 : ℚ) + 10) / 2 ≤ 1 then 1 else 0) :=
  ⟨by decide, by decide,
    (quadrantAt_encoding_consistent ⟨0, 0, 10, 10⟩ (by decide) (by decide) 5 1).1⟩

/-- Claim C7: `latLonToTile` computes the clamped floor formula
`clamp(floor((lat+90)/latStep), 0, latCount-1)` (and likewise for
longitude), and on config 36×72 the point (10, 10) maps to tile
(20, 38), identifier tile_20_38. -/
theorem latLonToTile_clamped_floor (lat lon : ℚ) (cfg : TileGridConfig)
    (hlat : 0 < cfg.latCount) (hlon : 0 < cfg.lonCount) :
    ((latLonToTile lat lon cfg).row : ℤ) =
      min (max ⌊(lat + 90) / (180 / (cfg.latCount : ℚ))⌋ 0) ((cfg.latCount : ℤ) - 1) ∧
    ((latLonToTile lat lon cfg).col : ℤ) =
      min (max ⌊(lon + 180) / (360 / (cfg.lonCount : ℚ))⌋ 0) ((cfg.lonCount : ℤ) - 1) ∧
    latLonToTile 10 10 ⟨36, 72⟩ = ⟨20, 38⟩ ∧
    tileIdToString (latLonToTile 10 10 ⟨36, 72⟩) = ("tile_20_38") := by
  have h1 : (1 : ℤ) ≤ (cfg.latCount : ℤ) := by exact_mod_cast hlat
  have h2 : (1 : ℤ) ≤ (cfg.lonCount : ℤ) := by exact_mod_cast hlon
  refine ⟨?_, ?_, by decide, by decide⟩
  · simp only [latLonToTile]
    omega
  · simp only [latLonToTile]
    omega

/-- Witness for the C7 theorem at the scenario input. -/
theorem latLonToTile_clamped_floor_witness :
    0 < (36 : ℕ) ∧ 0 < (72 : ℕ) ∧
      latLonToTile 10 10 ⟨36, 72⟩ = ⟨20, 38⟩ :=
  ⟨by decide, by decide,
    (latLonToTile_clamped_floor 10 10 ⟨36, 72⟩ (by decide) (by decide)).2.2.1⟩

/-! ## C3, C4: the top-level grid -/

/-- The raw (gap-free) cell of `tileBounds`, with explicit fields. -/
lemma tileBounds_zero_fields (row col : ℚ) (cfg : TileGridConfig) :
    tileBounds row col cfg 0 =
      ⟨-180 + col * (360 / cfg.lonCount), -90 + row * (180 / cfg.latCount),
       -180 + col * (360 / cfg.lonCount) + 360 / cfg.lonCount,
       -90 + row * (180 / cfg.latCount) + 180 / cfg.latCount⟩ := by
  simp [tileBounds]

/-- A point strictly inside a valid raw cell maps back to that cell's
(row, col) under `latLonToTile`. -/
lemma latLonToTile_of_strictlyInside (cfg : TileGridConfig)
    (hlat : 0 < cfg.latCount) (hlon : 0 < cfg.lonCount)
    (r c : ℕ) (hr : r < cfg.latCount) (hc : c < cfg.lonCount)
    (lat lon : ℚ) (h : strictlyInside (tileBounds (r : ℚ) (c : ℚ) cfg 0) lat lon) :
    latLonToTile lat lon cfg = ⟨r, c⟩ := by
  rw [tileBounds_zero_fields] at h
  obtain ⟨h1, h2, h3, h4⟩ := h
  have hN : (0 : ℚ) < (cfg.latCount : ℚ) := by exact_mod_cast hlat
  have hM : (0 : ℚ) < (cfg.lonCount : ℚ) := by exact_mod_cast hlon
  have hs : (0 : ℚ) < 180 / (cfg.latCount : ℚ) := by positivity
  have ht : (0 : ℚ) < 360 / (cfg.lonCount : ℚ) := by positivity
  have hfr : ⌊(lat + 90) / (180 / (cfg.latCount : ℚ))⌋ = (r : ℤ) := by
    rw [Int.floor_eq_iff]
    constructor
    · rw [le_div_iff hs]; push_cast; linarith
    · rw [div_lt_iff hs]; push_cast; linarith
  have hfc : ⌊(lon + 180) / (360 / (cfg.lonCount : ℚ))⌋ = (c : ℤ) := by
    rw [Int.floor_eq_iff]
    constructor
    · rw [le_div_iff ht]; push_cast; linarith
    · rw [div_lt_iff ht]; push_cast; linarith
  have hrz : (r : ℤ) < (cfg.latCount : ℤ) := by exact_mod_cast hr
  have hcz : (c : ℤ) < (cfg.lonCount : ℤ) := by exact_mod_cast hc
  simp only [latLonToTile, hfr, hfc, TileId.mk.injEq]
  constructor <;> omega

/-- Claim C3: for every valid (row, col) of a grid config with positive counts,
`latLonToTile` maps the center of the raw cell back to (row, col), and
indeed maps every interior point of the cell back to (row, col) —
`latLonToTile` is the exact inverse of `tileBounds` with gap fraction 0
on cell interiors. -/
theorem latLonToTile_inverse_tileBounds (cfg : TileGridConfig)
    (hlat : 0 < cfg.latCount) (hlon : 0 < cfg.lonCount)
    (r c : ℕ) (hr : r < cfg.latCount) (hc : c < cfg.lonCount) :
    latLonToTile
        (((tileBounds (r : ℚ) (c : ℚ) cfg 0).south +
          (tileBounds (r : ℚ) (c : ℚ) cfg 0).north) / 2)
        (((tileBounds (r : ℚ) (c : ℚ) cfg 0).west +
          (tileBounds (r : ℚ) (c : ℚ) cfg 0).east) / 2) cfg = ⟨r, c⟩ ∧
    (∀ lat lon : ℚ, strictlyInside (tileBounds (r : ℚ) (c : ℚ) cfg 0) lat lon →
      latLonToTile lat lon cfg = ⟨r, c⟩) := by
  have hN : (0 : ℚ) < (cfg.latCount : ℚ) := by exact_mod_cast hlat
  have hM : (0 : ℚ) < (cfg.lonCount : ℚ) := by exact_mod_cast hlon
  have hs : (0 : ℚ) < 180 / (cfg.latCount : ℚ) := by positivity
  have ht : (0 : ℚ) < 360 / (cfg.lonCount : ℚ) := by positivity
  constructor
  · apply latLonToTile_of_strictlyInside cfg hlat hlon r c hr hc
    rw [tileBounds_zero_fields]
    exact ⟨by dsimp only; linarith, by dsimp only; linarith,
           by dsimp only; linarith, by dsimp only; linarith⟩
  · exact latLonToTile_of_strictlyInside cfg hlat hlon r c hr hc

/-- Witness for the C3 theorem on the default 36×72 grid at tile (20, 38). -/
theorem latLonToTile_inverse_tileBounds_witness :
    0 < (36 : ℕ) ∧ 0 < (72 : ℕ) ∧ (20 : ℕ) < 36 ∧ (38 : ℕ) < 72 ∧
      latLonToTile
          (((tileBounds 20 38 ⟨36, 72⟩ 0).south +
            (tileBounds 20 38 ⟨36, 72⟩ 0).north) / 2)
          (((tileBounds 20 38 ⟨36, 72⟩ 0).west +
            (tileBounds 20 38 ⟨36, 72⟩ 0).east) / 2) ⟨36, 72⟩ = ⟨20, 38⟩ :=
  ⟨by decide, by decide, by decide, by decide,
    by
      have h := (latLonToTile_inverse_tileBounds ⟨36, 72⟩ (by decide) (by decide)
        20 38 (by decide) (by decide)).1
      exact_mod_cast h⟩

/-- One-dimensional covering step for C4: every offset in `[0, N]` lies in
some unit interval `[k, k+1]` with `k < N`. -/
lemma unit_interval_cover (N : ℕ) (hN : 0 < N) (x : ℚ)
    (h0 : 0 ≤ x) (h1 : x ≤ (N : ℚ)) :
    ∃ k : ℕ, k < N ∧ (k : ℚ) ≤ x ∧ x ≤ (k : ℚ) + 1 := by
  by_cases hcase : ⌊x⌋ < (N : ℤ)
  · have h00 : 0 ≤ ⌊x⌋ := Int.floor_nonneg.mpr h0
    refine ⟨⌊x⌋.toNat, by omega, ?_, ?_⟩
    · have hle := Int.floor_le x
      have : ((⌊x⌋.toNat : ℤ) : ℚ) ≤ x := by rwa [Int.toNat_of_nonneg h00]
      exact_mod_cast this
    · have hlt := Int.lt_floor_add_one x
      have : x < ((⌊x⌋.toNat : ℤ) : ℚ) + 1 := by rwa [Int.toNat_of_nonneg h00]
      have := le_of_lt this
      exact_mod_cast this
  · have hfl : (N : ℤ) ≤ ⌊x⌋ := not_lt.mp hcase
    have hNx : ((N : ℤ) : ℚ) ≤ x := Int.le_floor.mp hfl
    refine ⟨N - 1, by omega, ?_, ?_⟩
    · push_cast [Nat.cast_sub (by omega : 1 ≤ N)]
      push_cast at hNx
      linarith
    · push_cast [Nat.cast_sub (by omega : 1 ≤ N)]
      linarith

/-- Claim C4: for every grid config with positive counts, the raw cells cover
the whole −90..90 × −180..180 rectangle, no point is interior to two
distinct cells, and vertically/horizontally adjacent cells share their
boundary coordinate exactly. -/
theorem tileBounds_partition_globe (cfg : TileGridConfig)
    (hlat : 0 < cfg.latCount) (hlon : 0 < cfg.lonCount) :
    (∀ lat lon : ℚ, -90 ≤ lat → lat ≤ 90 → -180 ≤ lon → lon ≤ 180 →
      ∃ r : ℕ, r < cfg.latCount ∧ ∃ c : ℕ, c < cfg.lonCount ∧
        containsPoint (tileBounds (r : ℚ) (c : ℚ) cfg 0) lat lon) ∧
    (∀ r c r' c' : ℕ, ¬(r = r' ∧ c = c') →
      ∀ lat lon : ℚ,
        ¬(strictlyInside (tileBounds (r : ℚ) (c : ℚ) cfg 0) lat lon ∧
          strictlyInside (tileBounds (r' : ℚ) (c' : ℚ) cfg 0) lat lon)) ∧
    (∀ r c : ℕ,
      (tileBounds (r : ℚ) (c : ℚ) cfg 0).north =
        (tileBounds ((r : ℚ) + 1) (c : ℚ) cfg 0).south ∧
      (tileBounds (r : ℚ) (c : ℚ) cfg 0).east =
        (tileBounds (r : ℚ) ((c : ℚ) + 1) cfg 0).west) := by
  have hN : (0 : ℚ) < (cfg.latCount : ℚ) := by exact_mod_cast hlat
  have hM : (0 : ℚ) < (cfg.lonCount : ℚ) := by exact_mod_cast hlon
  have hs : (0 : ℚ) < 180 / (cfg.latCount : ℚ) := by positivity
  have ht : (0 : ℚ) < 360 / (cfg.lonCount : ℚ) := by positivity
  refine ⟨?_, ?_, ?_⟩
  · intro lat lon ha hb hc hd
    have hcanN : (cfg.latCount : ℚ) * (180 / (cfg.latCount : ℚ)) = 180 := by
      field_simp
    have hcanM : (cfg.lonCount : ℚ) * (360 / (cfg.lonCount : ℚ)) = 360 := by
      field_simp
    obtain ⟨r, hrN, hr1, hr2⟩ :=
      unit_interval_cover cfg.latCount hlat ((lat + 90) / (180 / (cfg.latCount : ℚ)))
        (div_nonneg (by linarith) (le_of_lt hs))
        (by rw [div_le_iff hs, hcanN]; linarith)
    obtain ⟨c', hcM, hc1, hc2⟩ :=
      unit_interval_cover cfg.lonCount hlon ((lon + 180) / (360 / (cfg.lonCount : ℚ)))
        (div_nonneg (by linarith) (le_of_lt ht))
        (by rw [div_le_iff ht, hcanM]; linarith)
    rw [le_div_iff hs] at hr1
    rw [div_le_iff hs] at hr2
    rw [le_div_iff ht] at hc1
    rw [div_le_iff ht] at hc2
    refine ⟨r, hrN, c', hcM, ?_⟩
    rw [tileBounds_zero_fields]
    exact ⟨by dsimp only; linarith, by dsimp only; linarith,
           by dsimp only; linarith, by dsimp only; linarith⟩
  · intro r c r' c' hne lat lon hcontra
    obtain ⟨ha, hb⟩ := hcontra
    rw [tileBounds_zero_fields] at ha hb
    obtain ⟨a1, a2, a3, a4⟩ := ha
    obtain ⟨b1, b2, b3, b4⟩ := hb
    dsimp only at a1 a2 a3 a4 b1 b2 b3 b4
    apply hne
    have hrow : r = r' := by
      have k1 : (r : ℚ) * (180 / (cfg.latCount : ℚ)) <
          ((r' : ℚ) + 1) * (180 / (cfg.latCount : ℚ)) := by linarith
      have k2 : (r' : ℚ) * (180 / (cfg.latCount : ℚ)) <
          ((r : ℚ) + 1) * (180 / (cfg.latCount : ℚ)) := by linarith
      have k1' : (r : ℚ) < (r' : ℚ) + 1 := lt_of_mul_lt_mul_right (by linarith) (le_of_lt hs)
      have k2' : (r' : ℚ) < (r : ℚ) + 1 := lt_of_mul_lt_mul_right (by linarith) (le_of_lt hs)
      have k1n : r < r' + 1 := by exact_mod_cast k1'
      have k2n : r' < r + 1 := by exact_mod_cast k2'
      omega
    have hcol : c = c' := by
      have k1 : (c : ℚ) * (360 / (cfg.lonCount : ℚ)) <
          ((c' : ℚ) + 1) * (360 / (cfg.lonCount : ℚ)) := by linarith
      have k2 : (c' : ℚ) * (360 / (cfg.lonCount : ℚ)) <
          ((c : ℚ) + 1) * (360 / (cfg.lonCount : ℚ)) := by linarith
      have k1' : (c : ℚ) < (c' : ℚ) + 1 := lt_of_mul_lt_mul_right (by linarith) (le_of_lt ht)
      have k2' : (c' : ℚ) < (c : ℚ) + 1 := lt_of_mul_lt_mul_right (by linarith) (le_of_lt ht)
      have k1n : c < c' + 1 := by exact_mod_cast k1'
      have k2n : c' < c + 1 := by exact_mod_cast k2'
      omega
    exact ⟨hrow, hcol⟩
  · intro r c
    rw [tileBounds_zero_fields, tileBounds_zero_fields, tileBounds_zero_fields]
    constructor <;> dsimp only <;> ring

/-- Witness for the C4 theorem on a 2×2 grid at the origin point. -/
theorem tileBounds_partition_globe_witness :
    0 < (2 : ℕ) ∧ 0 < (2 : ℕ) ∧
      ∃ r : ℕ, r < 2 ∧ ∃ c : ℕ, c < 2 ∧
        containsPoint (tileBounds (r : ℚ) (c : ℚ) ⟨2, 2⟩ 0) 0 0 :=
  ⟨by decide, by decide,
    (tileBounds_partition_globe ⟨2, 2⟩ (by decide) (by decide)).1 0 0
      (by decide) (by decide) (by decide) (by decide)⟩

/-! ## C8: identifier serialization round trip -/

lemma natToDecimalAux_fuel (f1 f2 n : ℕ) (h1 : n < f1) (h2 : n < f2) :
    natToDecimalAux f1 n = natToDecimalAux f2 n := by
  induction f1 generalizing f2 n with
  | zero => omega
  | succ f ih =>
    cases f2 with
    | zero => omega
    | succ f2' =>
      simp only [natToDecimalAux]
      by_cases h : n < 10
      · simp [h]
      · have hd : n / 10 < n := Nat.div_lt_self (by omega) (by omega)
        simp only [h, if_false, ite_false]
        rw [ih f2' (n / 10) (by omega) (by omega)]

/-- Unfolding equation for `natToDecimal`. -/
lemma natToDecimal_eq (n : ℕ) :
    natToDecimal n = if n < 10 then [digitChar n]
      else natToDecimal (n / 10) ++ [digitChar (n % 10)] := by
  by_cases h : n < 10
  · rw [if_pos h]
    show natToDecimalAux (n + 1) n = _
    rw [natToDecimalAux, if_pos h]
  · rw [if_neg h]
    have hd : n / 10 < n := Nat.div_lt_self (by omega) (by omega)
    have h2 : natToDecimal (n / 10) = natToDecimalAux n (n / 10) :=
      natToDecimalAux_fuel (n / 10 + 1) n (n / 10) (by omega) (by omega)
    rw [h2]
    show natToDecimalAux (n + 1) n = _
    rw [natToDecimalAux, if_neg h]

lemma digitChar_isDigit : ∀ d : ℕ, d < 10 → isDigitChar (digitChar d) = true := by
  decide

lemma digitChar_toNat : ∀ d : ℕ, d < 10 → (digitChar d).toNat = 48 + d := by
  decide

lemma natToDecimal_digits (n : ℕ) : ∀ c ∈ natToDecimal n, isDigitChar c = true := by
  induction n using Nat.strong_induction_on with
  | _ n ih =>
    rw [natToDecimal_eq]
    by_cases h : n < 10
    · simp only [h, if_true, ite_true, List.mem_singleton]
      rintro c rfl
      exact digitChar_isDigit n h
    · simp only [h, if_false, ite_false]
      intro c hc
      rcases List.mem_append.mp hc with hmem | hmem
      · exact ih (n / 10) (Nat.div_lt_self (by omega) (by omega)) c hmem
      · rw [List.mem_singleton.mp hmem]
        exact digitChar_isDigit _ (Nat.mod_lt _ (by omega))

lemma natToDecimal_ne_nil (n : ℕ) : natToDecimal n ≠ [] := by
  rw [natToDecimal_eq]
  by_cases h : n < 10 <;> simp [h]

lemma digitsVal_append_one (l : List Char) (c : Char) :
    digitsVal (l ++ [c]) = 10 * digitsVal l + (c.toNat - 48) := by
  unfold digitsVal
  rw [List.foldl_append]
  rfl

/-- Parsing a decimal rendering with `parseInt` semantics recovers the
number. -/
lemma digitsVal_natToDecimal (n : ℕ) : digitsVal (natToDecimal n) = n := by
  induction n using Nat.strong_induction_on with
  | _ n ih =>
    rw [natToDecimal_eq]
    by_cases h : n < 10
    · simp only [h, if_true, ite_true]
      show 10 * 0 + ((digitChar n).toNat - 48) = n
      rw [digitChar_toNat n h]
      omega
    · rw [if_neg h, digitsVal_append_one,
        ih (n / 10) (Nat.div_lt_self (by omega) (by omega)),
        digitChar_toNat _ (Nat.mod_lt _ (by omega))]
      omega

lemma isDigitChar_underscore : isDigitChar '_' = false := rfl

lemma takeWhile_digits_append (l rest : List Char)
    (h : ∀ c ∈ l, isDigitChar c = true) :
    (l ++ '_' :: rest).takeWhile isDigitChar = l ∧
    (l ++ '_' :: rest).dropWhile isDigitChar = '_' :: rest := by
  induction l with
  | nil =>
    constructor <;>
      simp [List.takeWhile_cons, List.dropWhile_cons, isDigitChar_underscore]
  | cons c t ih =>
    have hc := h c (List.mem_cons_self c t)
    obtain ⟨ih1, ih2⟩ := ih (fun x hx => h x (List.mem_cons_of_mem c hx))
    constructor <;> simp [List.takeWhile_cons, List.dropWhile_cons, hc, ih1, ih2]

lemma takeWhile_digits_all (l : List Char)
    (h : ∀ c ∈ l, isDigitChar c = true) :
    l.takeWhile isDigitChar = l ∧ l.dropWhile isDigitChar = [] := by
  induction l with
  | nil => constructor <;> rfl
  | cons c t ih =>
    have hc := h c (List.mem_cons_self c t)
    obtain ⟨ih1, ih2⟩ := ih (fun x hx => h x (List.mem_cons_of_mem c hx))
    constructor <;> simp [List.takeWhile_cons, List.dropWhile_cons, hc, ih1, ih2]

lemma tileIdToString_data (t : TileId) :
    (tileIdToString t).data =
      't' :: 'i' :: 'l' :: 'e' :: '_' ::
        (natToDecimal t.row ++ '_' :: natToDecimal t.col) := by
  show (("tile_") ++ ⟨natToDecimal t.row⟩ ++ ("_") ++ ⟨natToDecimal t.col⟩ :
    String).data = _
  rw [String.data_append, String.data_append, String.data_append]
  simp

/-- A member of a maximal digit run is a digit. -/
lemma mem_takeWhile_digit {l : List Char} {c : Char}
    (h : c ∈ l.takeWhile isDigitChar) : isDigitChar c = true := by
  induction l with
  | nil => simp [List.takeWhile] at h
  | cons a t ih =>
    rw [List.takeWhile_cons] at h
    by_cases ha : isDigitChar a = true
    · rw [if_pos ha] at h
      rcases List.mem_cons.mp h with rfl | h'
      · exact ha
      · exact ih h'
    · rw [if_neg ha] at h
      simp at h

/-- A string matching the tile-identifier pattern parses successfully. -/
lemma parseTileId_of_matches {s : String} (h : matchesTileIdPattern s) :
    ∃ t, parseTileId s = some t := by
  obtain ⟨ds1, ds2, hne1, hne2, hd1, hd2, hdata⟩ := h
  obtain ⟨a, t1, rfl⟩ := List.exists_cons_of_ne_nil hne1
  obtain ⟨b, t2, rfl⟩ := List.exists_cons_of_ne_nil hne2
  obtain ⟨k1, k2⟩ := takeWhile_digits_append (a :: t1) (b :: t2) hd1
  obtain ⟨k3, k4⟩ := takeWhile_digits_all (b :: t2) hd2
  simp only [List.cons_append] at k1 k2
  unfold parseTileId
  rw [hdata]
  simp only [List.cons_append, k1, k2, k3, k4]
  exact ⟨_, rfl⟩

/-- A string parsing successfully matches the tile-identifier pattern. -/
lemma matches_of_parseTileId {s : String} (h : parseTileId s ≠ none) :
    matchesTileIdPattern s := by
  unfold parseTileId at h
  split at h
  · next rest heq =>
    split at h
    · next d ds r2 h1 h2 =>
      split at h
      · next e es h3 h4 =>
        refine ⟨d :: ds, e :: es, by simp, by simp, ?_, ?_, ?_⟩
        · intro c hc
          exact mem_takeWhile_digit (h1 ▸ hc)
        · intro c hc
          exact mem_takeWhile_digit (h3 ▸ hc)
        · have hrest : rest = (d :: ds) ++ '_' :: r2 := by
            rw [← h1, ← h2, List.takeWhile_append_dropWhile]
          have hr2 : r2 = e :: es := by
            have := List.takeWhile_append_dropWhile (p := isDigitChar) (l := r2)
            rw [h3, h4, List.append_nil] at this
            exact this.symm
          rw [heq, hrest, hr2]
      · exact absurd rfl h
    · exact absurd rfl h
  · exact absurd rfl h

/-- Claim C8: `parseTileId` round-trips with `tileIdToString` on every
TileId; it returns `none` exactly on the strings that do not match the
`tile_<digits>_<digits>` pattern (so every non-matching string — the
three listed examples among them — is rejected with an absent value,
never a thrown fault: the function is total). -/
theorem parseTileId_round_trip_and_rejects :
    (∀ t : TileId, parseTileId (tileIdToString t) = some t) ∧
    (∀ s : String, parseTileId s = none ↔ ¬ matchesTileIdPattern s) ∧
    parseTileId ("tile_abc_1") = none ∧
    parseTileId ("tile_1") = none ∧
    parseTileId ("") = none := by
  refine ⟨?_, ?_, by decide, by decide, by decide⟩
  case refine_2 =>
    intro s
    constructor
    · intro hnone hm
      obtain ⟨t, ht⟩ := parseTileId_of_matches hm
      rw [hnone] at ht
      exact Option.noConfusion ht
    · intro hm
      by_contra hne
      exact hm (matches_of_parseTileId hne)
  intro t
  have hrowv := digitsVal_natToDecimal t.row
  have hcolv := digitsVal_natToDecimal t.col
  obtain ⟨h1, h2⟩ := takeWhile_digits_append (natToDecimal t.row)
    (natToDecimal t.col) (natToDecimal_digits t.row)
  obtain ⟨h3, h4⟩ := takeWhile_digits_all (natToDecimal t.col)
    (natToDecimal_digits t.col)
  obtain ⟨d, ds, hrow⟩ := List.exists_cons_of_ne_nil (natToDecimal_ne_nil t.row)
  obtain ⟨e, es, hcol⟩ := List.exists_cons_of_ne_nil (natToDecimal_ne_nil t.col)
  rw [hrow] at h1 hrowv
  rw [hcol] at h1 h2 h3 h4 hcolv
  rw [hrow] at h2
  simp only [List.cons_append] at h1 h2
  unfold parseTileId
  rw [tileIdToString_data, hrow, hcol]
  simp only [List.cons_append, h1, h2, h3, h4]
  rw [hrowv, hcolv]

/-- Witness check is not required (the single binder quantifies over
TileId values, with no propositional hypothesis); this companion records
the round trip at a concrete tile. -/
theorem parseTileId_round_trip_and_rejects_witness :
    parseTileId (tileIdToString ⟨20, 38⟩) = some ⟨20, 38⟩ :=
  parseTileId_round_trip_and_rejects.1 ⟨20, 38⟩

/-! ## Registry lemmas -/

lemma getById_eq_none_iff {reg : Registry} {id : String} :
    getById reg id = none ↔ ∀ pr ∈ reg, pr.1 ≠ id := by
  induction reg with
  | nil => simp [getById]
  | cons hd tl ih =>
    obtain ⟨i, e⟩ := hd
    simp only [getById]
    by_cases h : i = id
    · simp [h, List.forall_mem_cons]
    · simp [h, ih, List.forall_mem_cons]

lemma getById_append (l1 l2 : Registry) (id : String) :
    getById (l1 ++ l2) id =
      match getById l1 id with
      | some e => some e
      | none => getById l2 id := by
  induction l1 with
  | nil => simp [getById]
  | cons hd tl ih =>
    obtain ⟨i, e⟩ := hd
    simp only [List.cons_append, getById]
    by_cases h : i = id <;> simp [h, ih]

lemma getById_eq_some_of_mem {reg : Registry} {id : String} {e : Entity}
    (hmem : (id, e) ∈ reg)
    (huniq : ∀ pr ∈ reg, pr.1 = id → pr.2 = e) :
    getById reg id = some e := by
  induction reg with
  | nil => simp at hmem
  | cons hd tl ih =>
    obtain ⟨i, e'⟩ := hd
    simp only [getById]
    by_cases h : i = id
    · rw [if_pos h]
      have := huniq (i, e') (List.mem_cons_self (i, e') tl) h
      simp only at this
      rw [this]
    · rw [if_neg h]
      rcases List.mem_cons.mp hmem with heq | hmem'
      · injection heq with h1 h2
        exact absurd h1.symm h
      · exact ih hmem' (fun pr hpr => huniq pr (List.mem_cons_of_mem _ hpr))

lemma mem_removeById {reg : Registry} {id : String} {pr : String × Entity} :
    pr ∈ removeById reg id ↔ pr ∈ reg ∧ pr.1 ≠ id := by
  unfold removeById
  rw [List.mem_filter]
  simp

lemma getById_removeById_self (reg : Registry) (id : String) :
    getById (removeById reg id) id = none := by
  rw [getById_eq_none_iff]
  intro pr hpr
  exact (mem_removeById.mp hpr).2

lemma getById_removeById_ne (reg : Registry) (id id' : String) (h : id' ≠ id) :
    getById (removeById reg id) id' = getById reg id' := by
  induction reg with
  | nil => rfl
  | cons hd tl ih =>
    obtain ⟨i, e⟩ := hd
    by_cases hi : i = id
    · have h1 : removeById ((i, e) :: tl) id = removeById tl id := by
        simp [removeById, List.filter_cons, hi]
      have h2 : i ≠ id' := fun he => h (he.symm.trans hi)
      rw [h1, ih]
      show getById tl id' = getById ((i, e) :: tl) id'
      simp only [getById, if_neg h2]
    · have h1 : removeById ((i, e) :: tl) id = (i, e) :: removeById tl id := by
        simp [removeById, List.filter_cons, hi]
      rw [h1]
      show (if i = id' then some e else getById (removeById tl id) id') =
        getById ((i, e) :: tl) id'
      simp only [getById]
      by_cases hii : i = id' <;> simp [hii, ih]

lemma removeSubtree_eq_self {reg : Registry} {pfx : String}
    (h : ∀ pr ∈ reg, strStartsWith pr.1 pfx = false) :
    removeSubtree reg pfx = reg := by
  unfold removeSubtree
  apply List.filter_eq_self.mpr
  intro a ha
  simp [h a ha]

/-! ## Identifier path lemmas -/

lemma natToDecimal_single {n : ℕ} (h : n < 10) : natToDecimal n = [digitChar n] := by
  rw [natToDecimal_eq, if_pos h]

lemma idOfPath_nil (b : String) : idOfPath b [] = b := rfl

lemma idOfPath_cons (b : String) (q : Fin 4) (p : List (Fin 4)) :
    idOfPath b (q :: p) = idOfPath (b ++ ("_") ++ ⟨natToDecimal q.val⟩) p := rfl

lemma idOfPath_data (b : String) (p : List (Fin 4)) :
    (idOfPath b p).data = b.data ++ pathChars p := by
  induction p generalizing b with
  | nil => simp [idOfPath, pathChars]
  | cons q t ih =>
    rw [idOfPath_cons, ih, pathChars]
    rw [String.data_append, String.data_append]
    rw [natToDecimal_single (show q.val < 10 by omega)]
    simp

lemma pathChars_append (p1 p2 : List (Fin 4)) :
    pathChars (p1 ++ p2) = pathChars p1 ++ pathChars p2 := by
  induction p1 with
  | nil => rfl
  | cons q t ih => simp [pathChars, ih]

lemma pathChars_length (p : List (Fin 4)) :
    (pathChars p).length = 2 * p.length := by
  induction p with
  | nil => rfl
  | cons q t ih =>
    simp [pathChars, ih]
    omega

lemma digitChar_fin4_inj : ∀ a b : Fin 4, digitChar a.val = digitChar b.val → a = b := by
  decide

lemma pathChars_inj : ∀ {p1 p2 : List (Fin 4)}, pathChars p1 = pathChars p2 → p1 = p2
  | [], [], _ => rfl
  | [], _ :: _, h => by simp [pathChars] at h
  | _ :: _, [], h => by simp [pathChars] at h
  | q :: t, q' :: t', h => by
    simp only [pathChars, List.cons.injEq] at h
    obtain ⟨h1, h2⟩ := h.2
    obtain rfl := digitChar_fin4_inj q q' h1
    rw [pathChars_inj h2]

lemma idOfPath_inj {b : String} {p1 p2 : List (Fin 4)}
    (h : idOfPath b p1 = idOfPath b p2) : p1 = p2 := by
  apply pathChars_inj
  have hd := congrArg String.data h
  rw [idOfPath_data, idOfPath_data] at hd
  exact List.append_cancel_left hd

lemma idOfPath_ne_base {b : String} {p : List (Fin 4)} (h : p ≠ []) :
    idOfPath b p ≠ b := by
  intro he
  have hlen := congrArg (fun s => s.data.length) he
  simp only [idOfPath_data, List.length_append, pathChars_length] at hlen
  cases p with
  | nil => exact h rfl
  | cons q t => simp at hlen

lemma strStartsWith_iff {s pfx : String} :
    strStartsWith s pfx = true ↔ pfx.data <+: s.data := by
  unfold strStartsWith
  exact List.isPrefixOf_iff_prefix

lemma strStartsWith_idOfPath_base {b : String} {p : List (Fin 4)} (h : p ≠ []) :
    strStartsWith (idOfPath b p) (b ++ ("_")) = true := by
  rw [strStartsWith_iff, String.data_append, idOfPath_data]
  have hu : (("_") : String).data = ['_'] := rfl
  rw [hu]
  rw [List.prefix_append_right_inj]
  cases p with
  | nil => exact absurd rfl h
  | cons q t => exact ⟨digitChar q.val :: pathChars t, rfl⟩

lemma strStartsWith_trans {s t u : String}
    (h1 : strStartsWith s t = true) (h2 : strStartsWith t u = true) :
    strStartsWith s u = true := by
  rw [strStartsWith_iff] at *
  exact h2.trans h1

lemma pathChars_underscore_prefix_iff {p : List (Fin 4)} : ∀ {p' : List (Fin 4)},
    (pathChars p ++ ['_'] <+: pathChars p') ↔ ∃ q s, p' = p ++ q :: s := by
  induction p with
  | nil =>
    intro p'
    cases p' with
    | nil =>
      simp only [pathChars, List.nil_append]
      constructor
      · intro hp
        exact absurd (List.eq_nil_of_prefix_nil hp) (by simp)
      · rintro ⟨q, s, hq⟩
        simp at hq
    | cons q t =>
      simp only [pathChars, List.nil_append]
      constructor
      · intro _
        exact ⟨q, t, rfl⟩
      · intro _
        exact ⟨digitChar q.val :: pathChars t, rfl⟩
  | cons q t ih =>
    intro p'
    cases p' with
    | nil =>
      simp only [pathChars]
      constructor
      · intro hp
        have := List.eq_nil_of_prefix_nil hp
        simp at this
      · rintro ⟨q', s, hq⟩
        simp at hq
    | cons q' t' =>
      simp only [pathChars, List.cons_append]
      constructor
      · intro hp
        obtain ⟨-, h2⟩ := List.cons_prefix_cons.mp hp
        obtain ⟨h3, h4⟩ := List.cons_prefix_cons.mp h2
        obtain rfl := digitChar_fin4_inj q q' h3
        obtain ⟨q2, s, rfl⟩ := ih.mp h4
        exact ⟨q2, s, rfl⟩
      · rintro ⟨q2, s, hq⟩
        injection hq with h1 h2
        subst h1
        refine List.cons_prefix_cons.mpr ⟨rfl, ?_⟩
        refine List.cons_prefix_cons.mpr ⟨rfl, ?_⟩
        exact ih.mpr ⟨q2, s, h2⟩

/-- A generated identifier starts with `idOfPath b p ++ "_"` exactly when
its path strictly extends `p`. -/
lemma strStartsWith_extension_iff {b : String} {p p' : List (Fin 4)} :
    strStartsWith (idOfPath b p') (idOfPath b p ++ ("_")) = true ↔
      ∃ q s, p' = p ++ q :: s := by
  rw [strStartsWith_iff, String.data_append, idOfPath_data, idOfPath_data]
  have hu : (("_") : String).data = ['_'] := rfl
  rw [hu, List.append_assoc, List.prefix_append_right_inj]
  exact pathChars_underscore_prefix_iff

/-! ## Hole path lemmas -/

lemma holePathFrom_length (lat lon : ℚ) : ∀ (b : Bounds) (n : ℕ),
    (holePathFrom lat lon b n).length = n
  | _, 0 => rfl
  | b, n + 1 => by
    show (quadrantAt lat lon b :: holePathFrom lat lon (holeStep lat lon b) n).length = n + 1
    rw [List.length_cons, holePathFrom_length lat lon _ n]

lemma boundsAtLevel_succ_front (lat lon : ℚ) (b : Bounds) (n : ℕ) :
    boundsAtLevel lat lon b (n + 1) =
      boundsAtLevel lat lon (holeStep lat lon b) n := rfl

lemma holePathFrom_snoc (lat lon : ℚ) : ∀ (b : Bounds) (n : ℕ),
    holePathFrom lat lon b (n + 1) =
      holePathFrom lat lon b n ++ [quadrantAt lat lon (boundsAtLevel lat lon b n)]
  | b, 0 => rfl
  | b, n + 1 => by
    show quadrantAt lat lon b :: holePathFrom lat lon (holeStep lat lon b) (n + 1) = _
    rw [holePathFrom_snoc lat lon (holeStep lat lon b) n]
    rfl

/-! ## Characterization of the split loop -/

lemma finRange4 : List.finRange 4 = [0, 1, 2, 3] := by decide

lemma addSiblings_eq (lat lon : ℚ) (baseId : String) (b : Bounds)
    (path : List (Fin 4)) (depth : ℕ) (reg : Registry) :
    addSiblings lat lon baseId b path depth reg =
      (sibEntries lat lon baseId b path depth).reverse ++ reg := by
  unfold addSiblings sibEntries
  rw [finRange4]
  rcases fin4_cases (quadrantAt lat lon b) with h | h | h | h <;> rw [h] <;> rfl

lemma splitFrom_eq (lat lon : ℚ) (baseId : String) : ∀ (n : ℕ) (b : Bounds)
    (path : List (Fin 4)) (depth : ℕ) (reg : Registry),
    splitFrom lat lon baseId b path depth n reg =
      newEntries lat lon baseId b path depth n ++ reg
  | 0, _, _, _, _ => rfl
  | n + 1, b, path, depth, reg => by
    rw [show splitFrom lat lon baseId b path depth (n + 1) reg =
        splitFrom lat lon baseId (holeStep lat lon b)
          (path ++ [quadrantAt lat lon b]) (depth + 1) n
          (addSiblings lat lon baseId b path depth reg) from rfl]
    rw [splitFrom_eq lat lon baseId n _ _ _ _, addSiblings_eq]
    rw [show newEntries lat lon baseId b path depth (n + 1) =
        newEntries lat lon baseId (holeStep lat lon b)
          (path ++ [quadrantAt lat lon b]) (depth + 1) n ++
          (sibEntries lat lon baseId b path depth).reverse from rfl]
    rw [List.append_assoc]

lemma mem_newEntries_iff (lat lon : ℚ) (baseId : String) :
    ∀ (n : ℕ) (b : Bounds) (path : List (Fin 4)) (depth : ℕ) (pr : String × Entity),
    pr ∈ newEntries lat lon baseId b path depth n ↔
      ∃ i, i < n ∧ ∃ q : Fin 4,
        q ≠ quadrantAt lat lon (boundsAtLevel lat lon b i) ∧
        pr = (idOfPath baseId (path ++ holePathFrom lat lon b i ++ [q]),
          ⟨insetBounds (quadrantBounds (boundsAtLevel lat lon b i) q)
            (gapForDepth (depth + i)), true⟩)
  | 0, b, path, depth, pr => by simp [newEntries]
  | n + 1, b, path, depth, pr => by
    rw [show newEntries lat lon baseId b path depth (n + 1) =
        newEntries lat lon baseId (holeStep lat lon b)
          (path ++ [quadrantAt lat lon b]) (depth + 1) n ++
          (sibEntries lat lon baseId b path depth).reverse from rfl]
    rw [List.mem_append, List.mem_reverse]
    constructor
    · rintro (h | h)
      · obtain ⟨i, hi, q, hq, rfl⟩ :=
          (mem_newEntries_iff lat lon baseId n _ _ _ _).mp h
        refine ⟨i + 1, by omega, q, hq, ?_⟩
        have hpath : path ++ holePathFrom lat lon b (i + 1) =
            (path ++ [quadrantAt lat lon b]) ++
              holePathFrom lat lon (holeStep lat lon b) i := by
          rw [show holePathFrom lat lon b (i + 1) =
            quadrantAt lat lon b ::
              holePathFrom lat lon (holeStep lat lon b) i from rfl]
          rw [List.append_cons]
        rw [hpath]
        have hd : depth + (i + 1) = depth + 1 + i := by omega
        rw [hd]
        rfl
      · unfold sibEntries at h
        obtain ⟨q, hq, rfl⟩ := List.mem_map.mp h
        have hqne : q ≠ quadrantAt lat lon b := by
          have hb := (List.mem_filter.mp hq).2
          exact bne_iff_ne.mp hb
        exact ⟨0, by omega, q, hqne, by simp [boundsAtLevel, holePathFrom]⟩
    · rintro ⟨i, hi, q, hq, rfl⟩
      cases i with
      | zero =>
        right
        unfold sibEntries
        apply List.mem_map.mpr
        refine ⟨q, ?_, ?_⟩
        · apply List.mem_filter.mpr
          exact ⟨List.mem_finRange q, bne_iff_ne.mpr hq⟩
        · simp [boundsAtLevel, holePathFrom]
      | succ i' =>
        left
        apply (mem_newEntries_iff lat lon baseId n _ _ _ _).mpr
        refine ⟨i', by omega, q, hq, ?_⟩
        have hpath : path ++ holePathFrom lat lon b (i' + 1) =
            (path ++ [quadrantAt lat lon b]) ++
              holePathFrom lat lon (holeStep lat lon b) i' := by
          rw [show holePathFrom lat lon b (i' + 1) =
            quadrantAt lat lon b ::
              holePathFrom lat lon (holeStep lat lon b) i' from rfl]
          rw [List.append_cons]
        rw [hpath]
        have hd : depth + (i' + 1) = depth + 1 + i' := by omega
        rw [hd]
        rfl

/-- Lookup of a registered sibling entry among the entries created by one
invocation of the split loop. -/
lemma getById_newEntries_some (lat lon : ℚ) (baseId : String) (b : Bounds)
    (path : List (Fin 4)) (depth n : ℕ) (i : ℕ) (q : Fin 4)
    (hi : i < n) (hq : q ≠ quadrantAt lat lon (boundsAtLevel lat lon b i)) :
    getById (newEntries lat lon baseId b path depth n)
      (idOfPath baseId (path ++ holePathFrom lat lon b i ++ [q])) =
      some ⟨insetBounds (quadrantBounds (boundsAtLevel lat lon b i) q)
        (gapForDepth (depth + i)), true⟩ := by
  apply getById_eq_some_of_mem
  · exact (mem_newEntries_iff lat lon baseId n b path depth _).mpr ⟨i, hi, q, hq, rfl⟩
  · rintro ⟨id', e'⟩ hmem hkey
    obtain ⟨j, hj, q', hq', heq⟩ :=
      (mem_newEntries_iff lat lon baseId n b path depth _).mp hmem
    rw [Prod.mk.injEq] at heq
    obtain ⟨h1, h2⟩ := heq
    subst h1
    subst h2
    have hpath := idOfPath_inj hkey
    have hlenj : j = i := by
      have hlen := congrArg List.length hpath
      simp only [List.length_append, holePathFrom_length, List.length_cons,
        List.length_nil] at hlen
      omega
    subst hlenj
    have hqq : q' = q := by
      have h2 := List.append_cancel_left hpath
      simpa using h2
    subst hqq
    rfl

/-- No entry created by the split loop has an identifier whose path avoids
the shape `path ++ holes ++ [sibling]`. -/
lemma getById_newEntries_none (lat lon : ℚ) (baseId : String) (b : Bounds)
    (path : List (Fin 4)) (depth n : ℕ) (p : List (Fin 4))
    (h : ∀ i, i < n → ∀ q : Fin 4,
      q ≠ quadrantAt lat lon (boundsAtLevel lat lon b i) →
      path ++ holePathFrom lat lon b i ++ [q] ≠ p) :
    getById (newEntries lat lon baseId b path depth n) (idOfPath baseId p) = none := by
  rw [getById_eq_none_iff]
  rintro ⟨id', e'⟩ hmem
  obtain ⟨i, hi, q, hq, heq⟩ :=
    (mem_newEntries_iff lat lon baseId n b path depth _).mp hmem
  rw [Prod.mk.injEq] at heq
  obtain ⟨h1, -⟩ := heq
  subst h1
  intro hkey
  exact h i hi q hq (idOfPath_inj hkey)

/-! ## Geometry of the drilled holes -/

lemma gapForDepth_pos (d : ℕ) : 0 < gapForDepth d :=
  lt_of_lt_of_le (by norm_num) (le_max_left _ _)

lemma nondegenerate_quadrantBounds {b : Bounds} (hb : nondegenerate b) (q : Fin 4) :
    nondegenerate (quadrantBounds b q) := by
  obtain ⟨hw, hs⟩ := hb
  rcases fin4_cases q with rfl | rfl | rfl | rfl <;>
    simp only [quadrantBounds_q0, quadrantBounds_q1, quadrantBounds_q2,
      quadrantBounds_q3] <;>
    exact ⟨by dsimp only; linarith, by dsimp only; linarith⟩

lemma nondegenerate_boundsAtLevel {lat lon : ℚ} {b : Bounds}
    (hb : nondegenerate b) : ∀ n, nondegenerate (boundsAtLevel lat lon b n)
  | 0 => hb
  | n + 1 =>
    nondegenerate_boundsAtLevel (nondegenerate_quadrantBounds hb _) n

/-- The key exclusion property: a sibling quadrant (one that is not the
hole containing the point), inset by any positive gap, never contains the
point — not even on its boundary. -/
lemma not_containsPoint_inset_sibling {b : Bounds} (hb : nondegenerate b)
    {lat lon : ℚ} {q : Fin 4} (hq : q ≠ quadrantAt lat lon b)
    {g : ℚ} (hg : 0 < g) :
    ¬ containsPoint (insetBounds (quadrantBounds b q) g) lat lon := by
  obtain ⟨hw, hs⟩ := hb
  have hg2 : 0 < g / 2 := by linarith
  have pw1 : 0 < ((b.west + b.east) / 2 - b.west) * (g / 2) :=
    mul_pos (by linarith) hg2
  have pw2 : 0 < (b.east - (b.west + b.east) / 2) * (g / 2) :=
    mul_pos (by linarith) hg2
  have ph1 : 0 < ((b.south + b.north) / 2 - b.south) * (g / 2) :=
    mul_pos (by linarith) hg2
  have ph2 : 0 < (b.north - (b.south + b.north) / 2) * (g / 2) :=
    mul_pos (by linarith) hg2
  unfold quadrantAt at hq
  rintro ⟨c1, c2, c3, c4⟩
  by_cases hlat : (b.south + b.north) / 2 ≤ lat <;>
    by_cases hlon : (b.west + b.east) / 2 ≤ lon <;>
      simp only [hlat, hlon, if_true, if_false, ite_true, ite_false] at hq <;>
      rcases fin4_cases q with rfl | rfl | rfl | rfl <;>
      first
        | exact hq rfl
        | (simp only [insetBounds, quadrantBounds_q0, quadrantBounds_q1,
            quadrantBounds_q2, quadrantBounds_q3] at c1 c2 c3 c4
           linarith)

/-- The base cell of any point under the 18×36 grid config is
non-degenerate. -/
lemma nondegenerate_baseBoundsOf (lat lon : ℚ) :
    nondegenerate (baseBoundsOf lat lon) := by
  unfold baseBoundsOf
  rw [tileBounds_zero_fields]
  have h1 : (0 : ℚ) < 360 / (gridConfig.lonCount : ℚ) := by norm_num [gridConfig]
  have h2 : (0 : ℚ) < 180 / (gridConfig.latCount : ℚ) := by norm_num [gridConfig]
  exact ⟨by dsimp only; linarith, by dsimp only; linarith⟩

/-! ## C2: the drilled point is contained in no entity -/

/-- The visible-branch run of `removeOrSplitTileAt` is the full-depth
split: the created entries in front of the registry minus the base
entity. -/
lemma removeOrSplitTileAt_visible_eq (reg : Registry) (lat lon : ℚ)
    (e0 : Entity) (hbase : getById reg (baseIdOf lat lon) = some e0)
    (hvis : e0.visible = true) :
    removeOrSplitTileAt reg lat lon =
      newEntries lat lon (baseIdOf lat lon) (baseBoundsOf lat lon) [] 0 SPLIT_DEPTH ++
        removeById reg (baseIdOf lat lon) := by
  simp only [baseIdOf, baseTileOf, baseBoundsOf] at hbase ⊢
  simp only [removeOrSplitTileAt, hbase, hvis, if_true, ite_true]
  rw [splitFrom_eq]

/-- Claim C2: after the subdivision operation runs on a point whose top-level
tile entity is still visible (so the operation performs the full
maximum-depth split), no registered visible entity contains the exact
point, and in particular the final hole at maximum depth has no entity.
The hypotheses express "never split" (no descendant identifier is
registered) and that no other pre-existing visible entity contains the
point. -/
theorem no_entity_contains_point_after_full_split
    (reg : Registry) (lat lon : ℚ) (e0 : Entity)
    (hbase : getById reg (baseIdOf lat lon) = some e0)
    (hvis : e0.visible = true)
    (hothers : ∀ pr ∈ reg, pr.1 ≠ baseIdOf lat lon → pr.2.visible = true →
      ¬ containsPoint pr.2.bounds lat lon)
    (hfresh : ∀ pr ∈ reg, strStartsWith pr.1 (baseIdOf lat lon ++ ("_")) = false) :
    (∀ pr ∈ removeOrSplitTileAt reg lat lon, pr.2.visible = true →
      ¬ containsPoint pr.2.bounds lat lon) ∧
    getById (removeOrSplitTileAt reg lat lon)
      (idOfPath (baseIdOf lat lon)
        (holePathFrom lat lon (baseBoundsOf lat lon) SPLIT_DEPTH)) = none := by
  rw [removeOrSplitTileAt_visible_eq reg lat lon e0 hbase hvis]
  constructor
  · rintro pr hpr hprvis
    rcases List.mem_append.mp hpr with hnew | hold
    · obtain ⟨i, hi, q, hq, rfl⟩ :=
        (mem_newEntries_iff lat lon _ SPLIT_DEPTH _ [] 0 pr).mp hnew
      exact not_containsPoint_inset_sibling
        (nondegenerate_boundsAtLevel (nondegenerate_baseBoundsOf lat lon) i)
        hq (gapForDepth_pos _)
    · obtain ⟨hmem, hne⟩ := mem_removeById.mp hold
      exact hothers pr hmem hne hprvis
  · rw [getById_append]
    have hnone : getById
        (newEntries lat lon (baseIdOf lat lon) (baseBoundsOf lat lon) [] 0 SPLIT_DEPTH)
        (idOfPath (baseIdOf lat lon)
          (holePathFrom lat lon (baseBoundsOf lat lon) SPLIT_DEPTH)) = none := by
      apply getById_newEntries_none
      intro i hi q hq heqp
      rw [List.nil_append] at heqp
      have hlen := congrArg List.length heqp
      simp only [List.length_append, holePathFrom_length, List.length_cons,
        List.length_nil] at hlen
      have hsd : SPLIT_DEPTH = i + 1 := by omega
      rw [hsd, holePathFrom_snoc] at heqp
      have h2 := List.append_cancel_left heqp
      simp only [List.cons.injEq, and_true] at h2
      exact hq h2
    rw [hnone]
    have hne : holePathFrom lat lon (baseBoundsOf lat lon) SPLIT_DEPTH ≠ [] := by
      intro h0
      have hlen := congrArg List.length h0
      rw [holePathFrom_length] at hlen
      rw [show SPLIT_DEPTH = 15 from rfl] at hlen
      simp at hlen
    show getById (removeById reg (baseIdOf lat lon)) _ = none
    rw [getById_eq_none_iff]
    intro pr hpr
    obtain ⟨hmem, -⟩ := mem_removeById.mp hpr
    intro hk
    have hsw := strStartsWith_idOfPath_base (b := baseIdOf lat lon) hne
    have hf := hfresh pr hmem
    rw [hk, hsw] at hf
    simp at hf

/-- Witness for the C2 theorem: the registry holding only the visible
never-split tile (9, 18), clicked at the point (1, 1). -/
theorem no_entity_contains_point_after_full_split_witness :
    getById witnessReg (baseIdOf 1 1) =
        some ⟨tileBounds 9 18 gridConfig TILE_GAP, true⟩ ∧
      (⟨tileBounds 9 18 gridConfig TILE_GAP, true⟩ : Entity).visible = true ∧
      getById (removeOrSplitTileAt witnessReg 1 1)
        (idOfPath (baseIdOf 1 1)
          (holePathFrom 1 1 (baseBoundsOf 1 1) SPLIT_DEPTH)) = none :=
  ⟨by decide, by decide,
    (no_entity_contains_point_after_full_split witnessReg 1 1
      ⟨tileBounds 9 18 gridConfig TILE_GAP, true⟩ (by decide) (by decide)
      (by decide) (by decide)).2⟩

/-! ## Steps of the already-split branch -/

/-- The missing-base branch of `removeOrSplitTileAt` runs the descending
walk. -/
lemma removeOrSplitTileAt_missing_eq (reg : Registry) (lat lon : ℚ)
    (hnone : getById reg (baseIdOf lat lon) = none) :
    removeOrSplitTileAt reg lat lon =
      descend lat lon (baseIdOf lat lon) (baseBoundsOf lat lon) []
        SPLIT_DEPTH reg := by
  simp only [baseIdOf, baseTileOf, baseBoundsOf] at hnone ⊢
  simp only [removeOrSplitTileAt, hnone]

/-- One step of the walk when the probed child identifier is absent. -/
lemma descend_step_none (lat lon : ℚ) (baseId : String) (b : Bounds)
    (path : List (Fin 4)) (fuel : ℕ) (reg : Registry)
    (h : getById reg (idOfPath baseId (path ++ [quadrantAt lat lon b])) = none) :
    descend lat lon baseId b path (fuel + 1) reg =
      descend lat lon baseId (quadrantBounds b (quadrantAt lat lon b))
        (path ++ [quadrantAt lat lon b]) fuel reg := by
  simp only [descend, h]

/-- One step of the walk when the probed child identifier is a visible
leaf: remove it with its subtree and re-split it for the remaining
depth. -/
lemma descend_step_found (lat lon : ℚ) (baseId : String) (b : Bounds)
    (path : List (Fin 4)) (fuel : ℕ) (reg : Registry) (e : Entity)
    (h : getById reg (idOfPath baseId (path ++ [quadrantAt lat lon b])) = some e)
    (hv : e.visible = true) :
    descend lat lon baseId b path (fuel + 1) reg =
      splitFrom lat lon baseId (quadrantBounds b (quadrantAt lat lon b))
        (path ++ [quadrantAt lat lon b]) (path ++ [quadrantAt lat lon b]).length
        (SPLIT_DEPTH - (path ++ [quadrantAt lat lon b]).length)
        (removeSubtree
          (removeById reg (idOfPath baseId (path ++ [quadrantAt lat lon b])))
          (idOfPath baseId (path ++ [quadrantAt lat lon b]) ++ ("_"))) := by
  simp only [descend, h, hv, if_true, ite_true]

/-- Identifiers of proper descendants of a node also start with the base
tile identifier followed by an underscore. -/
lemma strStartsWith_under_base {b : String} {p : List (Fin 4)} (h : p ≠ []) :
    strStartsWith (idOfPath b p ++ ("_")) (b ++ ("_")) = true := by
  rw [strStartsWith_iff, String.data_append, String.data_append, idOfPath_data]
  have hu : (("_") : String).data = ['_'] := rfl
  rw [hu, List.append_assoc, List.prefix_append_right_inj]
  cases p with
  | nil => exact absurd rfl h
  | cons q t => exact ⟨digitChar q.val :: pathChars t ++ ['_'], rfl⟩

lemma holePathFrom_one (lat lon : ℚ) (b : Bounds) :
    holePathFrom lat lon b 1 = [quadrantAt lat lon b] := rfl

lemma holePathFrom_two (lat lon : ℚ) (b : Bounds) :
    holePathFrom lat lon b 2 =
      [quadrantAt lat lon b, quadrantAt lat lon (holeStep lat lon b)] := rfl

lemma holePathFrom_two_cons (lat lon : ℚ) (b : Bounds) (i : ℕ) :
    holePathFrom lat lon b (i + 2) =
      quadrantAt lat lon b :: quadrantAt lat lon (holeStep lat lon b) ::
        holePathFrom lat lon (holeStep lat lon (holeStep lat lon b)) i := rfl

/-! ## Lookups after the first invocation -/

/-- In a registry that holds no descendant of the base tile, no
descendant identifier resolves. -/
lemma getById_fresh_none (reg : Registry) (b : String)
    (hfresh : ∀ pr ∈ reg, strStartsWith pr.1 (b ++ ("_")) = false)
    (p : List (Fin 4)) (hp : p ≠ []) :
    getById reg (idOfPath b p) = none := by
  rw [getById_eq_none_iff]
  intro pr hpr hk
  have hsw := strStartsWith_idOfPath_base (b := b) hp
  have hf := hfresh pr hpr
  rw [hk, hsw] at hf
  simp at hf

/-- After the full split of a never-split visible tile, looking up any
descendant identifier is looking it up among the newly created
entries. -/
lemma first_split_lookup (reg : Registry) (lat lon : ℚ) (e0 : Entity)
    (hbase : getById reg (baseIdOf lat lon) = some e0)
    (hvis : e0.visible = true)
    (hfresh : ∀ pr ∈ reg, strStartsWith pr.1 (baseIdOf lat lon ++ ("_")) = false)
    (p : List (Fin 4)) (hp : p ≠ []) :
    getById (removeOrSplitTileAt reg lat lon) (idOfPath (baseIdOf lat lon) p) =
      getById (newEntries lat lon (baseIdOf lat lon) (baseBoundsOf lat lon) []
        0 SPLIT_DEPTH) (idOfPath (baseIdOf lat lon) p) := by
  rw [removeOrSplitTileAt_visible_eq reg lat lon e0 hbase hvis, getById_append]
  have hold : getById (removeById reg (baseIdOf lat lon))
      (idOfPath (baseIdOf lat lon) p) = none := by
    apply getById_fresh_none
    · intro pr hpr
      exact hfresh pr (mem_removeById.mp hpr).1
    · exact hp
  rw [hold]
  cases hx : getById (newEntries lat lon (baseIdOf lat lon) (baseBoundsOf lat lon)
    [] 0 SPLIT_DEPTH) (idOfPath (baseIdOf lat lon) p) <;> rfl

/-- The base identifier is gone after the full split. -/
lemma first_split_base_removed (reg : Registry) (lat lon : ℚ) (e0 : Entity)
    (hbase : getById reg (baseIdOf lat lon) = some e0)
    (hvis : e0.visible = true) :
    getById (removeOrSplitTileAt reg lat lon) (baseIdOf lat lon) = none := by
  rw [removeOrSplitTileAt_visible_eq reg lat lon e0 hbase hvis, getById_append]
  have hcond : ∀ i, i < SPLIT_DEPTH →
      ∀ q : Fin 4, q ≠ quadrantAt lat lon
        (boundsAtLevel lat lon (baseBoundsOf lat lon) i) →
      [] ++ holePathFrom lat lon (baseBoundsOf lat lon) i ++ [q] ≠
        ([] : List (Fin 4)) := by
    intro i hi q hq heq
    simp at heq
  have hNE := getById_newEntries_none lat lon (baseIdOf lat lon)
    (baseBoundsOf lat lon) [] 0 SPLIT_DEPTH [] hcond
  rw [idOfPath_nil] at hNE
  rw [hNE]
  exact getById_removeById_self reg (baseIdOf lat lon)

/-- The hole child of the base tile receives no entity. -/
lemma first_split_hole_empty (reg : Registry) (lat lon : ℚ) (e0 : Entity)
    (hbase : getById reg (baseIdOf lat lon) = some e0)
    (hvis : e0.visible = true)
    (hfresh : ∀ pr ∈ reg, strStartsWith pr.1 (baseIdOf lat lon ++ ("_")) = false) :
    getById (removeOrSplitTileAt reg lat lon)
      (idOfPath (baseIdOf lat lon)
        [quadrantAt lat lon (baseBoundsOf lat lon)]) = none := by
  rw [first_split_lookup reg lat lon e0 hbase hvis hfresh _ (by simp)]
  apply getById_newEntries_none
  intro i hi q hq heq
  rw [List.nil_append] at heq
  have hlen := congrArg List.length heq
  simp only [List.length_append, holePathFrom_length, List.length_cons,
    List.length_nil] at hlen
  have hi0 : i = 0 := by omega
  subst hi0
  simp only [show holePathFrom lat lon (baseBoundsOf lat lon) 0 = [] from rfl,
    List.nil_append, List.cons.injEq, and_true] at heq
  exact hq heq

/-- The three siblings of the hole do receive fresh visible entities,
inset by the depth-0 margin. -/
lemma first_split_siblings (reg : Registry) (lat lon : ℚ) (e0 : Entity)
    (hbase : getById reg (baseIdOf lat lon) = some e0)
    (hvis : e0.visible = true)
    (hfresh : ∀ pr ∈ reg, strStartsWith pr.1 (baseIdOf lat lon ++ ("_")) = false)
    (q : Fin 4) (hq : q ≠ quadrantAt lat lon (baseBoundsOf lat lon)) :
    getById (removeOrSplitTileAt reg lat lon) (idOfPath (baseIdOf lat lon) [q]) =
      some ⟨insetBounds (quadrantBounds (baseBoundsOf lat lon) q)
        (gapForDepth 0), true⟩ := by
  rw [first_split_lookup reg lat lon e0 hbase hvis hfresh _ (by simp)]
  have hkey := getById_newEntries_some lat lon (baseIdOf lat lon)
    (baseBoundsOf lat lon) [] 0 SPLIT_DEPTH 0 q
    (by rw [show SPLIT_DEPTH = 15 from rfl]; omega) hq
  simpa [show holePathFrom lat lon (baseBoundsOf lat lon) 0 = [] from rfl,
    show boundsAtLevel lat lon (baseBoundsOf lat lon) 0 =
      baseBoundsOf lat lon from rfl] using hkey

/-- At every level `i < SPLIT_DEPTH`, the three siblings of the level-i
hole receive visible entities inset by `gapForDepth i` — a single
invocation drills the full maximum depth. -/
lemma first_split_level_siblings (reg : Registry) (lat lon : ℚ) (e0 : Entity)
    (hbase : getById reg (baseIdOf lat lon) = some e0)
    (hvis : e0.visible = true)
    (hfresh : ∀ pr ∈ reg, strStartsWith pr.1 (baseIdOf lat lon ++ ("_")) = false)
    (i : ℕ) (hi : i < SPLIT_DEPTH) (q : Fin 4)
    (hq : q ≠ quadrantAt lat lon (boundsAtLevel lat lon (baseBoundsOf lat lon) i)) :
    getById (removeOrSplitTileAt reg lat lon)
      (idOfPath (baseIdOf lat lon)
        (holePathFrom lat lon (baseBoundsOf lat lon) i ++ [q])) =
      some ⟨insetBounds
        (quadrantBounds (boundsAtLevel lat lon (baseBoundsOf lat lon) i) q)
        (gapForDepth i), true⟩ := by
  rw [first_split_lookup reg lat lon e0 hbase hvis hfresh _ (by simp)]
  have hkey := getById_newEntries_some lat lon (baseIdOf lat lon)
    (baseBoundsOf lat lon) [] 0 SPLIT_DEPTH i q hi hq
  simpa using hkey

/-- The depth-2 sibling along the second point's path is present after
the first split, inset by the depth-1 margin. -/
lemma first_split_depth2_leaf (reg : Registry) (lat lon lat2 lon2 : ℚ) (e0 : Entity)
    (hbase : getById reg (baseIdOf lat lon) = some e0)
    (hvis : e0.visible = true)
    (hfresh : ∀ pr ∈ reg, strStartsWith pr.1 (baseIdOf lat lon ++ ("_")) = false)
    (h2b : quadrantAt lat2 lon2 (holeStep lat lon (baseBoundsOf lat lon)) ≠
      quadrantAt lat lon (holeStep lat lon (baseBoundsOf lat lon))) :
    getById (removeOrSplitTileAt reg lat lon)
      (idOfPath (baseIdOf lat lon)
        [quadrantAt lat lon (baseBoundsOf lat lon),
         quadrantAt lat2 lon2 (holeStep lat lon (baseBoundsOf lat lon))]) =
      some ⟨insetBounds
        (quadrantBounds (holeStep lat lon (baseBoundsOf lat lon))
          (quadrantAt lat2 lon2 (holeStep lat lon (baseBoundsOf lat lon))))
        (gapForDepth 1), true⟩ := by
  rw [first_split_lookup reg lat lon e0 hbase hvis hfresh _ (by simp)]
  have hkey := getById_newEntries_some lat lon (baseIdOf lat lon)
    (baseBoundsOf lat lon) [] 0 SPLIT_DEPTH 1
    (quadrantAt lat2 lon2 (holeStep lat lon (baseBoundsOf lat lon)))
    (by rw [show SPLIT_DEPTH = 15 from rfl]; omega) h2b
  simpa [holePathFrom_one,
    show boundsAtLevel lat lon (baseBoundsOf lat lon) 1 =
      holeStep lat lon (baseBoundsOf lat lon) from rfl] using hkey

/-- No depth-3 identifier along the second point's divergent path exists
after the first split. -/
lemma first_split_depth3_absent (reg : Registry) (lat lon lat2 lon2 : ℚ)
    (e0 : Entity)
    (hbase : getById reg (baseIdOf lat lon) = some e0)
    (hvis : e0.visible = true)
    (hfresh : ∀ pr ∈ reg, strStartsWith pr.1 (baseIdOf lat lon ++ ("_")) = false)
    (h2b : quadrantAt lat2 lon2 (holeStep lat lon (baseBoundsOf lat lon)) ≠
      quadrantAt lat lon (holeStep lat lon (baseBoundsOf lat lon)))
    (q : Fin 4) :
    getById (removeOrSplitTileAt reg lat lon)
      (idOfPath (baseIdOf lat lon)
        [quadrantAt lat lon (baseBoundsOf lat lon),
         quadrantAt lat2 lon2 (holeStep lat lon (baseBoundsOf lat lon)), q]) =
      none := by
  rw [first_split_lookup reg lat lon e0 hbase hvis hfresh _ (by simp)]
  apply getById_newEntries_none
  intro i hi q' hq' heq
  rw [List.nil_append] at heq
  have hlen := congrArg List.length heq
  simp only [List.length_append, holePathFrom_length, List.length_cons,
    List.length_nil] at hlen
  have hi2 : i = 2 := by omega
  subst hi2
  rw [holePathFrom_two] at heq
  simp only [List.cons_append, List.nil_append, List.cons.injEq, and_true] at heq
  exact h2b heq.2.1.symm

/-! ## The second invocation -/

/-- Shape of the registry after a second invocation at a point that lies
in the first point's depth-1 hole (same top-level tile, same depth-1
quadrant) but in a different depth-2 quadrant: the walk finds the
depth-2 sibling leaf, removes it (its subtree is empty) and re-splits it
for the remaining depth. -/
lemma second_split_eq (reg : Registry) (lat lon lat2 lon2 : ℚ) (e0 : Entity)
    (hbase : getById reg (baseIdOf lat lon) = some e0)
    (hvis : e0.visible = true)
    (hfresh : ∀ pr ∈ reg, strStartsWith pr.1 (baseIdOf lat lon ++ ("_")) = false)
    (htile : baseTileOf lat2 lon2 = baseTileOf lat lon)
    (h2a : quadrantAt lat2 lon2 (baseBoundsOf lat lon) =
      quadrantAt lat lon (baseBoundsOf lat lon))
    (h2b : quadrantAt lat2 lon2 (holeStep lat lon (baseBoundsOf lat lon)) ≠
      quadrantAt lat lon (holeStep lat lon (baseBoundsOf lat lon))) :
    removeOrSplitTileAt (removeOrSplitTileAt reg lat lon) lat2 lon2 =
      newEntries lat2 lon2 (baseIdOf lat lon)
        (quadrantBounds
          (quadrantBounds (baseBoundsOf lat lon)
            (quadrantAt lat lon (baseBoundsOf lat lon)))
          (quadrantAt lat2 lon2
            (quadrantBounds (baseBoundsOf lat lon)
              (quadrantAt lat lon (baseBoundsOf lat lon)))))
        [quadrantAt lat lon (baseBoundsOf lat lon),
         quadrantAt lat2 lon2
           (quadrantBounds (baseBoundsOf lat lon)
             (quadrantAt lat lon (baseBoundsOf lat lon)))]
        2 (SPLIT_DEPTH - 2) ++
      removeById (removeOrSplitTileAt reg lat lon)
        (idOfPath (baseIdOf lat lon)
          [quadrantAt lat lon (baseBoundsOf lat lon),
           quadrantAt lat2 lon2
             (quadrantBounds (baseBoundsOf lat lon)
               (quadrantAt lat lon (baseBoundsOf lat lon)))]) := by
  have hid2 : baseIdOf lat2 lon2 = baseIdOf lat lon := by
    unfold baseIdOf; rw [htile]
  have hbb2 : baseBoundsOf lat2 lon2 = baseBoundsOf lat lon := by
    unfold baseBoundsOf; rw [htile]
  have hA1 := first_split_base_removed reg lat lon e0 hbase hvis
  have hleaf : getById (removeOrSplitTileAt reg lat lon)
      (idOfPath (baseIdOf lat lon)
        ([quadrantAt lat lon (baseBoundsOf lat lon)] ++
          [quadrantAt lat2 lon2
            (quadrantBounds (baseBoundsOf lat lon)
              (quadrantAt lat lon (baseBoundsOf lat lon)))])) =
      some ⟨insetBounds
        (quadrantBounds
          (quadrantBounds (baseBoundsOf lat lon)
            (quadrantAt lat lon (baseBoundsOf lat lon)))
          (quadrantAt lat2 lon2
            (quadrantBounds (baseBoundsOf lat lon)
              (quadrantAt lat lon (baseBoundsOf lat lon)))))
        (gapForDepth 1), true⟩ := by
    have hl := first_split_depth2_leaf reg lat lon lat2 lon2 e0 hbase hvis hfresh h2b
    simpa [holeStep] using hl
  have step0 : removeOrSplitTileAt (removeOrSplitTileAt reg lat lon) lat2 lon2 =
      descend lat2 lon2 (baseIdOf lat lon) (baseBoundsOf lat lon) [] SPLIT_DEPTH
        (removeOrSplitTileAt reg lat lon) := by
    rw [removeOrSplitTileAt_missing_eq _ lat2 lon2 (by rw [hid2]; exact hA1),
      hid2, hbb2]
  have step1 : descend lat2 lon2 (baseIdOf lat lon) (baseBoundsOf lat lon) []
      SPLIT_DEPTH (removeOrSplitTileAt reg lat lon) =
      descend lat2 lon2 (baseIdOf lat lon)
        (quadrantBounds (baseBoundsOf lat lon)
          (quadrantAt lat lon (baseBoundsOf lat lon)))
        [quadrantAt lat lon (baseBoundsOf lat lon)] 14
        (removeOrSplitTileAt reg lat lon) := by
    rw [show SPLIT_DEPTH = 14 + 1 from rfl]
    rw [descend_step_none lat2 lon2 (baseIdOf lat lon) (baseBoundsOf lat lon) [] 14
      (removeOrSplitTileAt reg lat lon)
      (by
        rw [List.nil_append, h2a]
        exact first_split_hole_empty reg lat lon e0 hbase hvis hfresh)]
    rw [h2a]
    rfl
  have hsub : ∀ pr ∈ removeById (removeOrSplitTileAt reg lat lon)
      (idOfPath (baseIdOf lat lon)
        [quadrantAt lat lon (baseBoundsOf lat lon),
         quadrantAt lat2 lon2
           (quadrantBounds (baseBoundsOf lat lon)
             (quadrantAt lat lon (baseBoundsOf lat lon)))]),
      strStartsWith pr.1
        (idOfPath (baseIdOf lat lon)
          [quadrantAt lat lon (baseBoundsOf lat lon),
           quadrantAt lat2 lon2
             (quadrantBounds (baseBoundsOf lat lon)
               (quadrantAt lat lon (baseBoundsOf lat lon)))] ++ ("_")) = false := by
    intro pr hpr
    obtain ⟨hmem1, hne⟩ := mem_removeById.mp hpr
    rw [removeOrSplitTileAt_visible_eq reg lat lon e0 hbase hvis] at hmem1
    rcases List.mem_append.mp hmem1 with hnew | hold
    · obtain ⟨i, hi, q, hq, rfl⟩ :=
        (mem_newEntries_iff lat lon _ SPLIT_DEPTH _ [] 0 _).mp hnew
      rcases Bool.eq_false_or_eq_true (strStartsWith
        (idOfPath (baseIdOf lat lon)
          ([] ++ holePathFrom lat lon (baseBoundsOf lat lon) i ++ [q]))
        (idOfPath (baseIdOf lat lon)
          [quadrantAt lat lon (baseBoundsOf lat lon),
           quadrantAt lat2 lon2
             (quadrantBounds (baseBoundsOf lat lon)
               (quadrantAt lat lon (baseBoundsOf lat lon)))] ++ ("_")))
        with hb | hb
      · exfalso
        obtain ⟨qq, s, hqs⟩ := strStartsWith_extension_iff.mp hb
        rw [List.nil_append] at hqs
        have hlen := congrArg List.length hqs
        simp only [List.length_append, holePathFrom_length, List.length_cons,
          List.length_nil] at hlen
        obtain ⟨i', rfl⟩ : ∃ i', i = i' + 2 := ⟨s.length, by omega⟩
        rw [holePathFrom_two_cons] at hqs
        rw [show ([quadrantAt lat lon (baseBoundsOf lat lon),
          quadrantAt lat2 lon2
            (quadrantBounds (baseBoundsOf lat lon)
              (quadrantAt lat lon (baseBoundsOf lat lon)))] ++ qq :: s) =
          quadrantAt lat lon (baseBoundsOf lat lon) ::
            quadrantAt lat2 lon2
              (quadrantBounds (baseBoundsOf lat lon)
                (quadrantAt lat lon (baseBoundsOf lat lon))) :: qq :: s from rfl] at hqs
        injection hqs with h1 hqs
        injection hqs with h2 hqs
        exact h2b h2.symm
      · exact hb
    · obtain ⟨hmem, -⟩ := mem_removeById.mp hold
      rcases Bool.eq_false_or_eq_true (strStartsWith pr.1
        (idOfPath (baseIdOf lat lon)
          [quadrantAt lat lon (baseBoundsOf lat lon),
           quadrantAt lat2 lon2
             (quadrantBounds (baseBoundsOf lat lon)
               (quadrantAt lat lon (baseBoundsOf lat lon)))] ++ ("_")))
        with hb | hb
      · exfalso
        have hb2 : strStartsWith
            (idOfPath (baseIdOf lat lon)
              [quadrantAt lat lon (baseBoundsOf lat lon),
               quadrantAt lat2 lon2
                 (quadrantBounds (baseBoundsOf lat lon)
                   (quadrantAt lat lon (baseBoundsOf lat lon)))] ++ ("_"))
            ((baseIdOf lat lon) ++ ("_")) = true :=
          strStartsWith_under_base (by simp)
        have htr := strStartsWith_trans hb hb2
        have hf := hfresh pr hmem
        rw [htr] at hf
        simp at hf
      · exact hb
  have step2 : descend lat2 lon2 (baseIdOf lat lon)
      (quadrantBounds (baseBoundsOf lat lon)
        (quadrantAt lat lon (baseBoundsOf lat lon)))
      [quadrantAt lat lon (baseBoundsOf lat lon)] 14
      (removeOrSplitTileAt reg lat lon) =
      splitFrom lat2 lon2 (baseIdOf lat lon)
        (quadrantBounds
          (quadrantBounds (baseBoundsOf lat lon)
            (quadrantAt lat lon (baseBoundsOf lat lon)))
          (quadrantAt lat2 lon2
            (quadrantBounds (baseBoundsOf lat lon)
              (quadrantAt lat lon (baseBoundsOf lat lon)))))
        [quadrantAt lat lon (baseBoundsOf lat lon),
         quadrantAt lat2 lon2
           (quadrantBounds (baseBoundsOf lat lon)
             (quadrantAt lat lon (baseBoundsOf lat lon)))]
        2 (SPLIT_DEPTH - 2)
        (removeById (removeOrSplitTileAt reg lat lon)
          (idOfPath (baseIdOf lat lon)
            [quadrantAt lat lon (baseBoundsOf lat lon),
             quadrantAt lat2 lon2
               (quadrantBounds (baseBoundsOf lat lon)
                 (quadrantAt lat lon (baseBoundsOf lat lon)))])) := by
    rw [show (14 : ℕ) = 13 + 1 from rfl]
    rw [descend_step_found lat2 lon2 (baseIdOf lat lon)
      (quadrantBounds (baseBoundsOf lat lon)
        (quadrantAt lat lon (baseBoundsOf lat lon)))
      [quadrantAt lat lon (baseBoundsOf lat lon)] 13
      (removeOrSplitTileAt reg lat lon)
      ⟨insetBounds
        (quadrantBounds
          (quadrantBounds (baseBoundsOf lat lon)
            (quadrantAt lat lon (baseBoundsOf lat lon)))
          (quadrantAt lat2 lon2
            (quadrantBounds (baseBoundsOf lat lon)
              (quadrantAt lat lon (baseBoundsOf lat lon)))))
        (gapForDepth 1), true⟩ hleaf rfl]
    rw [removeSubtree_eq_self (by
      simpa [List.singleton_append] using hsub)]
    simp only [List.singleton_append, List.length_cons, List.length_nil]
  rw [step0, step1, step2, splitFrom_eq]

/-- Claim C1 (amended): clicking a never-split top-level tile removes its
entity and drills the full maximum depth in one invocation: at every
level `i < SPLIT_DEPTH` it creates the three entities for the non-hole
quadrants of the level-i hole (each fresh — absent beforehand — and
inset by `gapForDepth i`), while every entity the call creates is one
of these level-i siblings, so exactly 3 new sub-entities appear at
every depth 1..SPLIT_DEPTH; in particular exactly 3 at depth 1, with
margin `gapForDepth 0` and the hole quadrant receiving none.  A second
invocation at a point of
the same tile that lies in the depth-1 hole but in a different depth-2
quadrant finds the visible depth-2 sibling as the current leaf, removes
it, and creates three new entities at depth 3 (absent before the second
call) inset by `gapForDepth 2`, which is strictly smaller than both the
depth-1 entities' margin `gapForDepth 0` and the depth-2 entities'
margin `gapForDepth 1`. -/
theorem subdivision_two_invocations
    (reg : Registry) (lat lon lat2 lon2 : ℚ) (e0 : Entity)
    (hbase : getById reg (baseIdOf lat lon) = some e0)
    (hvis : e0.visible = true)
    (hfresh : ∀ pr ∈ reg, strStartsWith pr.1 (baseIdOf lat lon ++ ("_")) = false)
    (htile : baseTileOf lat2 lon2 = baseTileOf lat lon)
    (h2a : quadrantAt lat2 lon2 (baseBoundsOf lat lon) =
      quadrantAt lat lon (baseBoundsOf lat lon))
    (h2b : quadrantAt lat2 lon2 (holeStep lat lon (baseBoundsOf lat lon)) ≠
      quadrantAt lat lon (holeStep lat lon (baseBoundsOf lat lon))) :
    (getById (removeOrSplitTileAt reg lat lon) (baseIdOf lat lon) = none) ∧
    (∀ q : Fin 4, q ≠ quadrantAt lat lon (baseBoundsOf lat lon) →
      getById reg (idOfPath (baseIdOf lat lon) [q]) = none ∧
      getById (removeOrSplitTileAt reg lat lon) (idOfPath (baseIdOf lat lon) [q]) =
        some ⟨insetBounds (quadrantBounds (baseBoundsOf lat lon) q)
          (gapForDepth 0), true⟩) ∧
    (getById (removeOrSplitTileAt reg lat lon)
      (idOfPath (baseIdOf lat lon)
        [quadrantAt lat lon (baseBoundsOf lat lon)]) = none) ∧
    (∀ i, i < SPLIT_DEPTH → ∀ q : Fin 4,
      q ≠ quadrantAt lat lon (boundsAtLevel lat lon (baseBoundsOf lat lon) i) →
      getById reg (idOfPath (baseIdOf lat lon)
        (holePathFrom lat lon (baseBoundsOf lat lon) i ++ [q])) = none ∧
      getById (removeOrSplitTileAt reg lat lon)
        (idOfPath (baseIdOf lat lon)
          (holePathFrom lat lon (baseBoundsOf lat lon) i ++ [q])) =
        some ⟨insetBounds
          (quadrantBounds (boundsAtLevel lat lon (baseBoundsOf lat lon) i) q)
          (gapForDepth i), true⟩) ∧
    (∀ pr ∈ removeOrSplitTileAt reg lat lon, pr ∈ reg ∨
      ∃ i, i < SPLIT_DEPTH ∧ ∃ q : Fin 4,
        q ≠ quadrantAt lat lon (boundsAtLevel lat lon (baseBoundsOf lat lon) i) ∧
        pr = (idOfPath (baseIdOf lat lon)
            (holePathFrom lat lon (baseBoundsOf lat lon) i ++ [q]),
          ⟨insetBounds
            (quadrantBounds (boundsAtLevel lat lon (baseBoundsOf lat lon) i) q)
            (gapForDepth i), true⟩)) ∧
    (getById (removeOrSplitTileAt reg lat lon)
        (idOfPath (baseIdOf lat lon)
          [quadrantAt lat lon (baseBoundsOf lat lon),
           quadrantAt lat2 lon2
             (quadrantBounds (baseBoundsOf lat lon)
               (quadrantAt lat lon (baseBoundsOf lat lon)))]) =
      some ⟨insetBounds
        (quadrantBounds
          (quadrantBounds (baseBoundsOf lat lon)
            (quadrantAt lat lon (baseBoundsOf lat lon)))
          (quadrantAt lat2 lon2
            (quadrantBounds (baseBoundsOf lat lon)
              (quadrantAt lat lon (baseBoundsOf lat lon)))))
        (gapForDepth 1), true⟩) ∧
    (getById (removeOrSplitTileAt (removeOrSplitTileAt reg lat lon) lat2 lon2)
        (idOfPath (baseIdOf lat lon)
          [quadrantAt lat lon (baseBoundsOf lat lon),
           quadrantAt lat2 lon2
             (quadrantBounds (baseBoundsOf lat lon)
               (quadrantAt lat lon (baseBoundsOf lat lon)))]) = none) ∧
    (∀ q : Fin 4,
      q ≠ quadrantAt lat2 lon2
        (quadrantBounds
          (quadrantBounds (baseBoundsOf lat lon)
            (quadrantAt lat lon (baseBoundsOf lat lon)))
          (quadrantAt lat2 lon2
            (quadrantBounds (baseBoundsOf lat lon)
              (quadrantAt lat lon (baseBoundsOf lat lon))))) →
      getById (removeOrSplitTileAt reg lat lon)
          (idOfPath (baseIdOf lat lon)
            [quadrantAt lat lon (baseBoundsOf lat lon),
             quadrantAt lat2 lon2
               (quadrantBounds (baseBoundsOf lat lon)
                 (quadrantAt lat lon (baseBoundsOf lat lon))), q]) = none ∧
      getById (removeOrSplitTileAt (removeOrSplitTileAt reg lat lon) lat2 lon2)
          (idOfPath (baseIdOf lat lon)
            [quadrantAt lat lon (baseBoundsOf lat lon),
             quadrantAt lat2 lon2
               (quadrantBounds (baseBoundsOf lat lon)
                 (quadrantAt lat lon (baseBoundsOf lat lon))), q]) =
        some ⟨insetBounds
          (quadrantBounds
            (quadrantBounds
              (quadrantBounds (baseBoundsOf lat lon)
                (quadrantAt lat lon (baseBoundsOf lat lon)))
              (quadrantAt lat2 lon2
                (quadrantBounds (baseBoundsOf lat lon)
                  (quadrantAt lat lon (baseBoundsOf lat lon))))) q)
          (gapForDepth 2), true⟩) ∧
    (gapForDepth 2 < gapForDepth 0 ∧ gapForDepth 2 < gapForDepth 1) := by
  refine ⟨first_split_base_removed reg lat lon e0 hbase hvis, ?_, ?_, ?_, ?_, ?_, ?_, ?_,
    by decide, by decide⟩
  · intro q hq
    exact ⟨getById_fresh_none reg (baseIdOf lat lon) hfresh [q] (by simp),
      first_split_siblings reg lat lon e0 hbase hvis hfresh q hq⟩
  · exact first_split_hole_empty reg lat lon e0 hbase hvis hfresh
  · intro i hi q hq
    exact ⟨getById_fresh_none reg (baseIdOf lat lon) hfresh _ (by simp),
      first_split_level_siblings reg lat lon e0 hbase hvis hfresh i hi q hq⟩
  · intro pr hpr
    rw [removeOrSplitTileAt_visible_eq reg lat lon e0 hbase hvis] at hpr
    rcases List.mem_append.mp hpr with hnew | hold
    · right
      obtain ⟨i, hi, q, hq, rfl⟩ :=
        (mem_newEntries_iff lat lon _ SPLIT_DEPTH _ [] 0 _).mp hnew
      exact ⟨i, hi, q, hq, by simp⟩
    · left
      exact (mem_removeById.mp hold).1
  · have hl := first_split_depth2_leaf reg lat lon lat2 lon2 e0 hbase hvis hfresh h2b
    simpa [holeStep] using hl
  · rw [second_split_eq reg lat lon lat2 lon2 e0 hbase hvis hfresh htile h2a h2b,
      getById_append]
    have hNE2 : getById (newEntries lat2 lon2 (baseIdOf lat lon)
        (quadrantBounds
          (quadrantBounds (baseBoundsOf lat lon)
            (quadrantAt lat lon (baseBoundsOf lat lon)))
          (quadrantAt lat2 lon2
            (quadrantBounds (baseBoundsOf lat lon)
              (quadrantAt lat lon (baseBoundsOf lat lon)))))
        [quadrantAt lat lon (baseBoundsOf lat lon),
         quadrantAt lat2 lon2
           (quadrantBounds (baseBoundsOf lat lon)
             (quadrantAt lat lon (baseBoundsOf lat lon)))]
        2 (SPLIT_DEPTH - 2))
        (idOfPath (baseIdOf lat lon)
          [quadrantAt lat lon (baseBoundsOf lat lon),
           quadrantAt lat2 lon2
             (quadrantBounds (baseBoundsOf lat lon)
               (quadrantAt lat lon (baseBoundsOf lat lon)))]) = none := by
      apply getById_newEntries_none
      intro i hi q hq heq
      have hlen := congrArg List.length heq
      simp only [List.length_append, holePathFrom_length, List.length_cons,
        List.length_nil] at hlen
      omega
    rw [hNE2]
    exact getById_removeById_self _ _
  · intro q hq
    constructor
    · exact first_split_depth3_absent reg lat lon lat2 lon2 e0 hbase hvis hfresh h2b q
    · rw [second_split_eq reg lat lon lat2 lon2 e0 hbase hvis hfresh htile h2a h2b,
        getById_append]
      have hkey := getById_newEntries_some lat2 lon2 (baseIdOf lat lon)
        (quadrantBounds
          (quadrantBounds (baseBoundsOf lat lon)
            (quadrantAt lat lon (baseBoundsOf lat lon)))
          (quadrantAt lat2 lon2
            (quadrantBounds (baseBoundsOf lat lon)
              (quadrantAt lat lon (baseBoundsOf lat lon)))))
        [quadrantAt lat lon (baseBoundsOf lat lon),
         quadrantAt lat2 lon2
           (quadrantBounds (baseBoundsOf lat lon)
             (quadrantAt lat lon (baseBoundsOf lat lon)))]
        2 (SPLIT_DEPTH - 2) 0 q
        (by rw [show SPLIT_DEPTH = 15 from rfl]; omega) hq
      simp only [show ∀ b, holePathFrom lat2 lon2 b 0 = [] from fun _ => rfl,
        show ∀ b, boundsAtLevel lat2 lon2 b 0 = b from fun _ => rfl,
        List.append_nil, List.cons_append, List.nil_append, Nat.add_zero] at hkey
      rw [hkey]

set_option maxRecDepth 100000 in
/-- Claim C1 counterexample: in the concrete scenario (fresh tile (9, 18),
first click at (1, 1), second click at (4, 4), which lies inside the
depth-1 hole and whose current leaf is the visible depth-2 sibling),
the second invocation creates NO new entity at depth 2: every depth-2
identifier (base id followed by two quadrant digits) present after the
second call was already present after the first call.  This refutes the
claim that the second invocation "creates a further 3 new entities at
depth 2" (the code removes the depth-2 leaf and creates its entities at
depth 3 and below). -/
theorem second_invocation_no_new_depth2_entity :
    ((List.finRange 4).all fun q1 => (List.finRange 4).all fun q2 =>
      (getById reg2c (idOfPath ("tile_9_18") [q1, q2]) == none) ||
      !(getById reg1c (idOfPath ("tile_9_18") [q1, q2]) == none)) = true := by
  decide

/-- Witness for the amended C1 theorem in the concrete scenario: the
one-tile registry, first click (1, 1), second click (4, 4); the
hypotheses hold by computation and the depth-2 leaf along the second
point's path is gone after the second invocation. -/
theorem subdivision_two_invocations_witness :
    getById witnessReg (baseIdOf 1 1) =
        some ⟨tileBounds 9 18 gridConfig TILE_GAP, true⟩ ∧
      (∀ pr ∈ witnessReg, strStartsWith pr.1 (baseIdOf 1 1 ++ ("_")) = false) ∧
      baseTileOf 4 4 = baseTileOf 1 1 ∧
      quadrantAt 4 4 (baseBoundsOf 1 1) = quadrantAt 1 1 (baseBoundsOf 1 1) ∧
      quadrantAt 4 4 (holeStep 1 1 (baseBoundsOf 1 1)) ≠
        quadrantAt 1 1 (holeStep 1 1 (baseBoundsOf 1 1)) ∧
      getById (removeOrSplitTileAt (removeOrSplitTileAt witnessReg 1 1) 4 4)
          (idOfPath (baseIdOf 1 1)
            [quadrantAt 1 1 (baseBoundsOf 1 1),
             quadrantAt 4 4
               (quadrantBounds (baseBoundsOf 1 1)
                 (quadrantAt 1 1 (baseBoundsOf 1 1)))]) = none :=
  ⟨by decide, by decide, by decide, by decide, by decide,
    (subdivision_two_invocations witnessReg 1 1 4 4
      ⟨tileBounds 9 18 gridConfig TILE_GAP, true⟩ (by decide) (by decide)
      (by decide) (by decide) (by decide) (by decide)).2.2.2.2.2.2.1⟩

end Earth2Dev

end Earth2
